import Mathlib

/-!
Sensor data processing: statistics, outlier removal and the processing pipeline.

A shallow embedding of `SensorReading` (src/src/SensorReading.cpp) and
`SensorDataProcessor` (src/src/SensorDataProcessor.cpp).

Modelling conventions:

* `double` is given two readings. In the first, values and arithmetic are exact rational
  numbers (`ℚ`): it decides what the code does structurally and in exact arithmetic. In the
  second (`Dbl`, functions with the suffix `D`), every operation is rounded as binary64
  does, with overflow to infinity and NaN: it decides what the program does where rounding
  or overflow matters.
* `std::vector<T>` is `List T`; `size_t` is `Nat` (a vector's size is far below
  `2^64 / 3`, so `3 * n` in `calculateQuartiles` does not wrap); `int64_t` is
  `Int` (the code only compares a timestamp with `0`).
* `std::sort` on a vector of numbers is insertion sort for `≤`; every ascending
  sort of the same values gives the same list (`sortAscending_unique`).
* `std::copy_if` with `std::back_inserter` is the loop `copyIf`, which computes
  `List.filter` (`copyIf_eq_filter`); `removeOutliers` and `process` are written with
  `List.filter` directly.
* `std::map<K, V>` is the list of its entries in ascending key order; `m[k]` followed by
  an update of the mapped value is `mapModify`.
* an unchecked `operator[]` read is `xs[i]` where the code's own guards put the
  index in range, and `xs[i]?` (failing with `none` when out of range) in
  `calculateQuartiles`, which has no guard of its own.
-/

namespace SensorData

/-- The enum `SensorReading::SensorType`. -/
inductive SensorType where
  | TEMPERATURE
  | PRESSURE
  | DEPTH
  | SONAR
  | ACCELEROMETER
  | GYROSCOPE
  deriving DecidableEq

/-- The class `SensorReading`: its four private fields. -/
structure SensorReading where
  sensorId_ : String
  type_ : SensorType
  value_ : ℚ
  timestamp_ : Int
  deriving DecidableEq

namespace SensorReading

/-- The getter `getSensorId`. -/
def getSensorId (r : SensorReading) : String := r.sensorId_

/-- The getter `getType`. -/
def getType (r : SensorReading) : SensorType := r.type_

/-- The getter `getValue`. -/
def getValue (r : SensorReading) : ℚ := r.value_

/-- The method `isValid`: `!sensorId_.empty() && timestamp_ > 0`. -/
def isValid (r : SensorReading) : Bool :=
  !r.sensorId_.isEmpty && decide (r.timestamp_ > 0)

end SensorReading

/-- The struct `SensorStatistics`. -/
structure SensorStatistics where
  min : ℚ
  max : ℚ
  mean : ℚ
  median : ℚ
  count : Nat
  deriving DecidableEq

/-- The default constructor of `SensorStatistics`: every field zero. -/
def SensorStatistics.default : SensorStatistics :=
  { min := 0, max := 0, mean := 0, median := 0, count := 0 }

/-- The call `std::sort(values.begin(), values.end())` on a vector of numbers. -/
def sortAscending (values : List ℚ) : List ℚ :=
  values.insertionSort (· ≤ ·)

/-- The loop that copies `reading.getValue()` of every reading into `values`. -/
def extractValues (readings : List SensorReading) : List ℚ :=
  readings.map SensorReading.getValue

/-- The call `std::accumulate(values.begin(), values.end(), 0.0)`, in exact arithmetic
(`accumulateD` rounds every addition). -/
def accumulate (values : List ℚ) : ℚ :=
  values.foldl (· + ·) 0

/-- The private method `calculateMedian`, in exact arithmetic (`calculateMedianD` is the
binary64 reading). -/
def calculateMedian (values : List ℚ) : ℚ :=
  if h : values.length = 0 then 0
  else if values.length % 2 = 0 then
    (values[values.length / 2 - 1] + values[values.length / 2]) / 2
  else
    values[values.length / 2]

/-- The private method `calculateQuartiles`, in exact arithmetic (`calculateQuartilesD` is the
binary64 reading); the two output parameters `q1`, `q3` are the returned pair, and an
out-of-range read makes the call fail with `none`. -/
def calculateQuartiles (sortedValues : List ℚ) : Option (ℚ × ℚ) :=
  let n := sortedValues.length
  let q1Index := n / 4
  let q1 : Option ℚ :=
    if n % 4 = 0 ∨ n % 4 = 1 then sortedValues[q1Index]?
    else do
      let a ← sortedValues[q1Index]?
      let b ← sortedValues[q1Index + 1]?
      pure ((a + b) / 2)
  let q3Index := (3 * n) / 4
  let q3 : Option ℚ :=
    if n % 4 = 0 ∨ n % 4 = 3 then sortedValues[q3Index]?
    else do
      let a ← sortedValues[q3Index]?
      let b ← sortedValues[q3Index + 1]?
      pure ((a + b) / 2)
  do
    let a ← q1
    let b ← q3
    pure (a, b)

/-- The method `removeOutliers`, in exact arithmetic (`removeOutliersD` is the binary64
reading); `none` only if `calculateQuartiles` reads out of range. -/
def removeOutliers (readings : List SensorReading) : Option (List SensorReading) :=
  if readings.length < 4 then some readings
  else do
    let values := sortAscending (extractValues readings)
    let (q1, q3) ← calculateQuartiles values
    let iqr := q3 - q1
    let lowerBound := q1 - 1.5 * iqr
    let upperBound := q3 + 1.5 * iqr
    pure (readings.filter fun r =>
      decide (r.getValue ≥ lowerBound) && decide (r.getValue ≤ upperBound))

/-- The method `process`: keep the valid readings, then remove outliers. -/
def process (readings : List SensorReading) : Option (List SensorReading) :=
  let validReadings := readings.filter fun r => r.isValid
  if validReadings.isEmpty then some validReadings
  else removeOutliers validReadings

/-- The method `calculateStatistics`, in exact arithmetic (`calculateStatisticsD` is the
binary64 reading). -/
def calculateStatistics (readings : List SensorReading) : SensorStatistics :=
  let stats : SensorStatistics := { SensorStatistics.default with count := readings.length }
  if h : readings.length = 0 then stats
  else
    let values := sortAscending (extractValues readings)
    have hn : 0 < values.length := by
      simp only [values, sortAscending, extractValues, List.length_insertionSort,
        List.length_map]
      omega
    { stats with
      min := values[0]
      max := values[values.length - 1]
      mean := accumulate values / (values.length : ℚ)
      median := calculateMedian values }

/-- Reading constructor used in examples: sensor "S1", TEMPERATURE, timestamp 1000. -/
def mkReading (v : ℚ) : SensorReading :=
  { sensorId_ := "S1", type_ := SensorType.TEMPERATURE, value_ := v, timestamp_ := 1000 }

/-- Example input of the unit test `testCalculateStatistics`: values 10, 20, 30, 40. -/
def exampleFour : List SensorReading := [10, 20, 30, 40].map mkReading

/-- Follows the spec's words (quartile algorithm, first bullet): `Q1` of the ascending
values `s`, with `n` their count. -/
def specQ1 (s : List ℚ) : Option ℚ :=
  if s.length % 4 = 0 ∨ s.length % 4 = 1 then s[s.length / 4]?
  else
    match s[s.length / 4]?, s[s.length / 4 + 1]? with
    | some a, some b => some ((a + b) / 2)
    | _, _ => none

/-- Follows the spec's words (quartile algorithm, second bullet): `Q3` of the ascending
values `s`, with `n` their count. -/
def specQ3 (s : List ℚ) : Option ℚ :=
  if s.length % 4 = 0 ∨ s.length % 4 = 3 then s[3 * s.length / 4]?
  else
    match s[3 * s.length / 4]?, s[3 * s.length / 4 + 1]? with
    | some a, some b => some ((a + b) / 2)
    | _, _ => none

/-- Input of the unit test `testRemoveOutliers`: ten readings with values 20..29 and
timestamps 1000, 1100, .., 1900, then the outliers 1000 and -1000. -/
def exampleOutliers : List SensorReading :=
  [ { sensorId_ := "S1", type_ := SensorType.TEMPERATURE, value_ := 20, timestamp_ := 1000 },
    { sensorId_ := "S1", type_ := SensorType.TEMPERATURE, value_ := 21, timestamp_ := 1100 },
    { sensorId_ := "S1", type_ := SensorType.TEMPERATURE, value_ := 22, timestamp_ := 1200 },
    { sensorId_ := "S1", type_ := SensorType.TEMPERATURE, value_ := 23, timestamp_ := 1300 },
    { sensorId_ := "S1", type_ := SensorType.TEMPERATURE, value_ := 24, timestamp_ := 1400 },
    { sensorId_ := "S1", type_ := SensorType.TEMPERATURE, value_ := 25, timestamp_ := 1500 },
    { sensorId_ := "S1", type_ := SensorType.TEMPERATURE, value_ := 26, timestamp_ := 1600 },
    { sensorId_ := "S1", type_ := SensorType.TEMPERATURE, value_ := 27, timestamp_ := 1700 },
    { sensorId_ := "S1", type_ := SensorType.TEMPERATURE, value_ := 28, timestamp_ := 1800 },
    { sensorId_ := "S1", type_ := SensorType.TEMPERATURE, value_ := 29, timestamp_ := 1900 },
    { sensorId_ := "S1", type_ := SensorType.TEMPERATURE, value_ := 1000, timestamp_ := 2000 },
    { sensorId_ := "S1", type_ := SensorType.TEMPERATURE, value_ := -1000, timestamp_ := 3000 } ]

/-- Input of the unit test `testProcess`: two valid readings around two invalid ones. -/
def exampleProcess : List SensorReading :=
  [ { sensorId_ := "S1", type_ := SensorType.TEMPERATURE, value_ := 20, timestamp_ := 1000 },
    { sensorId_ := "", type_ := SensorType.TEMPERATURE, value_ := 25, timestamp_ := 2000 },
    { sensorId_ := "S3", type_ := SensorType.TEMPERATURE, value_ := 30, timestamp_ := 0 },
    { sensorId_ := "S4", type_ := SensorType.TEMPERATURE, value_ := 35, timestamp_ := 4000 } ]

/-- The setter `setValue`. -/
def SensorReading.setValue (r : SensorReading) (value : ℚ) : SensorReading :=
  { r with value_ := value }

/-- The underlying value of an enumerator of `SensorType`: its position in the declaration. -/
def SensorType.toNat : SensorType → Nat
  | .TEMPERATURE => 0
  | .PRESSURE => 1
  | .DEPTH => 2
  | .SONAR => 3
  | .ACCELEROMETER => 4
  | .GYROSCOPE => 5

/-- The comparison `std::less<SensorType>` of the maps keyed by category: enumerators
compare by their underlying value. -/
instance : LinearOrder SensorType :=
  LinearOrder.lift' SensorType.toNat
    (fun a b h => by cases a <;> cases b <;> first | rfl | cases h)

/-- The call `std::copy_if(first, last, std::back_inserter(out), pred)` with `out` empty:
each element that satisfies `pred` is pushed to the back of `out`, in iteration order. -/
def copyIf {α : Type} (pred : α → Bool) (xs : List α) : List α :=
  xs.foldl (fun out x => if pred x then out ++ [x] else out) []

/-- The method `filterByType`. -/
def filterByType (readings : List SensorReading) (type : SensorType) : List SensorReading :=
  copyIf (fun r => decide (r.getType = type)) readings

/-- The method `filterBySensorId`. -/
def filterBySensorId (readings : List SensorReading) (sensorId : String) :
    List SensorReading :=
  copyIf (fun r => decide (r.getSensorId = sensorId)) readings

/-- The method `filterByValueRange`. -/
def filterByValueRange (readings : List SensorReading) (minValue maxValue : ℚ) :
    List SensorReading :=
  copyIf (fun r =>
    let val := r.getValue
    decide (val ≥ minValue) && decide (val ≤ maxValue)) readings

/-- The statement `m[k] = f(m[k])` on a `std::map`: `operator[]` finds the entry whose key
is equivalent to `k` (neither less than the other), inserting one with the value `dflt` at
its place in the key order when there is none, and the mapped value is then updated. -/
def mapModify {K V : Type} [LinearOrder K] (k : K) (dflt : V) (f : V → V) :
    List (K × V) → List (K × V)
  | [] => [(k, f dflt)]
  | (k2, v) :: rest =>
    if k < k2 then (k, f dflt) :: (k2, v) :: rest
    else if k2 < k then (k2, v) :: mapModify k dflt f rest
    else (k2, f v) :: rest

/-- The lookup `std::map::find`: the mapped value of the entry with key `k`, if any. -/
def mapFind {K V : Type} [LinearOrder K] (k : K) : List (K × V) → Option V
  | [] => none
  | (k2, v) :: rest => if k2 = k then some v else mapFind k rest

/-- The first loop of `calculateStatisticsByType` and `calculateStatisticsBySensorId`, with
the grouping key as a parameter: `grouped[key(reading)].push_back(reading)`. -/
def groupReadings {K : Type} [LinearOrder K] (key : SensorReading → K)
    (readings : List SensorReading) : List (K × List SensorReading) :=
  readings.foldl (fun grouped reading =>
    mapModify (key reading) [] (fun group => group ++ [reading]) grouped) []

/-- The second loop of `calculateStatisticsByType` and `calculateStatisticsBySensorId`:
`statsMap[pair.first] = calculateStatistics(pair.second)` for every entry of `grouped`. -/
def statisticsOfGroups {K : Type} [LinearOrder K] (grouped : List (K × List SensorReading)) :
    List (K × SensorStatistics) :=
  grouped.foldl (fun statsMap pair =>
    mapModify pair.1 SensorStatistics.default (fun _ => calculateStatistics pair.2) statsMap) []

/-- The shared body of `calculateStatisticsByType` and `calculateStatisticsBySensorId`,
with the grouping key as a parameter: group the readings, then compute the statistics of
every group. -/
def calculateStatisticsBy {K : Type} [LinearOrder K] (key : SensorReading → K)
    (readings : List SensorReading) : List (K × SensorStatistics) :=
  statisticsOfGroups (groupReadings key readings)

/-- The method `calculateStatisticsByType`. -/
def calculateStatisticsByType (readings : List SensorReading) :
    List (SensorType × SensorStatistics) :=
  let grouped : List (SensorType × List SensorReading) :=
    readings.foldl (fun grouped reading =>
      mapModify reading.getType [] (fun group => group ++ [reading]) grouped) []
  grouped.foldl (fun statsMap pair =>
    mapModify pair.1 SensorStatistics.default (fun _ => calculateStatistics pair.2) statsMap) []

/-- The method `calculateStatisticsBySensorId`. -/
def calculateStatisticsBySensorId (readings : List SensorReading) :
    List (String × SensorStatistics) :=
  let grouped : List (String × List SensorReading) :=
    readings.foldl (fun grouped reading =>
      mapModify reading.getSensorId [] (fun group => group ++ [reading]) grouped) []
  grouped.foldl (fun statsMap pair =>
    mapModify pair.1 SensorStatistics.default (fun _ => calculateStatistics pair.2) statsMap) []

/-- The call `std::minmax_element` on the non-empty range `first :: rest` with the comparator
`a.getValue() < b.getValue()`: the first smallest and the last largest element. -/
def minmaxElement (first : SensorReading) (rest : List SensorReading) :
    SensorReading × SensorReading :=
  rest.foldl (fun acc r =>
    (if r.getValue < acc.1.getValue then r else acc.1,
     if r.getValue < acc.2.getValue then acc.2 else r)) (first, first)

/-- The method `normalizeValues`, in exact arithmetic (`normalizeValuesD` is the binary64
reading); the vector updated in place is the returned list. -/
def normalizeValues (readings : List SensorReading) : List SensorReading :=
  match readings with
  | [] => []
  | first :: rest =>
    let minmax := minmaxElement first rest
    let minVal := minmax.1.getValue
    let maxVal := minmax.2.getValue
    let range := maxVal - minVal
    if range = 0 then first :: rest
    else (first :: rest).map fun reading => reading.setValue ((reading.getValue - minVal) / range)

/-- Input of the unit test `testFilterByType`. -/
def exampleTypes : List SensorReading :=
  [ { sensorId_ := "S1", type_ := SensorType.TEMPERATURE, value_ := 20, timestamp_ := 1000 },
    { sensorId_ := "S2", type_ := SensorType.PRESSURE, value_ := 1013, timestamp_ := 2000 },
    { sensorId_ := "S3", type_ := SensorType.TEMPERATURE, value_ := 25, timestamp_ := 3000 },
    { sensorId_ := "S4", type_ := SensorType.DEPTH, value_ := 100, timestamp_ := 4000 } ]

/-- Input of the unit test `testFilterBySensorId`. -/
def exampleIds : List SensorReading :=
  [ { sensorId_ := "S1", type_ := SensorType.TEMPERATURE, value_ := 20, timestamp_ := 1000 },
    { sensorId_ := "S2", type_ := SensorType.PRESSURE, value_ := 1013, timestamp_ := 2000 },
    { sensorId_ := "S1", type_ := SensorType.TEMPERATURE, value_ := 25, timestamp_ := 3000 },
    { sensorId_ := "S3", type_ := SensorType.DEPTH, value_ := 100, timestamp_ := 4000 } ]

/-- Input of the unit test `testFilterByValueRange`. -/
def exampleRange : List SensorReading :=
  [ { sensorId_ := "S1", type_ := SensorType.TEMPERATURE, value_ := 20, timestamp_ := 1000 },
    { sensorId_ := "S2", type_ := SensorType.TEMPERATURE, value_ := 25, timestamp_ := 2000 },
    { sensorId_ := "S3", type_ := SensorType.TEMPERATURE, value_ := 30, timestamp_ := 3000 },
    { sensorId_ := "S4", type_ := SensorType.TEMPERATURE, value_ := 35, timestamp_ := 4000 } ]

/-- Input of the unit test `testCalculateStatisticsByType`. -/
def exampleGroups : List SensorReading :=
  [ { sensorId_ := "S1", type_ := SensorType.TEMPERATURE, value_ := 20, timestamp_ := 1000 },
    { sensorId_ := "S2", type_ := SensorType.TEMPERATURE, value_ := 25, timestamp_ := 2000 },
    { sensorId_ := "S3", type_ := SensorType.PRESSURE, value_ := 1013, timestamp_ := 3000 },
    { sensorId_ := "S4", type_ := SensorType.PRESSURE, value_ := 1015, timestamp_ := 4000 } ]

/-- Two readings with the same value 5 (different sensors and timestamps). -/
def exampleConstant : List SensorReading :=
  [ { sensorId_ := "S1", type_ := SensorType.TEMPERATURE, value_ := 5, timestamp_ := 1000 },
    { sensorId_ := "S2", type_ := SensorType.PRESSURE, value_ := 5, timestamp_ := 2000 } ]

/-- The default constructor of `SensorReading`: `sensorId_("")`, `type_(TEMPERATURE)`,
`value_(0.0)`, `timestamp_(0)`. -/
def SensorReading.default : SensorReading :=
  { sensorId_ := "", type_ := SensorType.TEMPERATURE, value_ := 0, timestamp_ := 0 }

/-- The static map `typeMap` of `typeToString`: the entries of its initializer list. -/
def typeMap : List (SensorType × String) :=
  [ (SensorType.TEMPERATURE, "TEMPERATURE"),
    (SensorType.PRESSURE, "PRESSURE"),
    (SensorType.DEPTH, "DEPTH"),
    (SensorType.SONAR, "SONAR"),
    (SensorType.ACCELEROMETER, "ACCELEROMETER"),
    (SensorType.GYROSCOPE, "GYROSCOPE") ]

/-- The static map `stringMap` of `stringToType`: the entries of its initializer list (the
keys are distinct, and `mapFind` does not depend on the order of the entries). -/
def stringMap : List (String × SensorType) :=
  [ ("TEMPERATURE", SensorType.TEMPERATURE),
    ("PRESSURE", SensorType.PRESSURE),
    ("DEPTH", SensorType.DEPTH),
    ("SONAR", SensorType.SONAR),
    ("ACCELEROMETER", SensorType.ACCELEROMETER),
    ("GYROSCOPE", SensorType.GYROSCOPE) ]

/-- The static method `SensorReading::typeToString`. -/
def typeToString (type : SensorType) : String :=
  match mapFind type typeMap with
  | some name => name
  | none => "UNKNOWN"

/-- The static method `SensorReading::stringToType`. -/
def stringToType (str : String) : SensorType :=
  match mapFind str stringMap with
  | some type => type
  | none => SensorType.TEMPERATURE

/-- The indices of `sortedValues` that `calculateQuartiles` reads on a vector of size `n`, in
the order of the reads: `q1Index`, then `q1Index + 1` in the else branch, `q3Index`, then
`q3Index + 1` in the else branch. -/
def quartileReads (n : Nat) : List Nat :=
  (if n % 4 = 0 ∨ n % 4 = 1 then [n / 4] else [n / 4, n / 4 + 1]) ++
  (if n % 4 = 0 ∨ n % 4 = 3 then [3 * n / 4] else [3 * n / 4, 3 * n / 4 + 1])

/-- Eight valid readings with the values 0, 0, 0, 0, 0, 0, 1, 10. -/
def exampleTwice : List SensorReading := [0, 0, 0, 0, 0, 0, 1, 10].map mkReading

/-- The values 20, 25, 30, 35 of `exampleRange` in another order, on one sensor. -/
def exampleShuffled : List SensorReading := [35, 20, 30, 25].map mkReading

/-! ## The binary64 reading of `double`

The definitions above read `double` arithmetic as exact. The definitions below translate the
same functions with every arithmetic operation rounded as IEEE-754 binary64 does (round to
nearest, ties to even, overflow to infinity, NaN), so that rounding and overflow of the
program can be evaluated. The two zeros are identified: they compare equal, and the code never
divides by a zero (`range == 0.0` guards the only variable divisor). -/

/-- A value of the C++ type `double`: a finite number, an infinity or NaN. -/
inductive Dbl where
  | fin (q : ℚ)
  | pinf
  | ninf
  | nan
  deriving DecidableEq

namespace Dbl

/-- The largest `k ≤ fuel` with `2 ^ k ≤ n` (0 for `n < 2`); `fuel = n` is always enough. -/
def ilog2 : Nat → Nat → Nat
  | 0, _ => 0
  | fuel + 1, n => if n < 2 then 0 else ilog2 fuel (n / 2) + 1

/-- The binary64 value nearest to the positive rational `a / b`, ties to even: with
`2 ^ e ≤ a / b < 2 ^ (e + 1)` the spacing is `2 ^ (max e (-1022) - 52)` (53 significant bits,
subnormal below `2 ^ (-1022)`), and a rounded magnitude of `2 ^ 1024` or more overflows. -/
def roundPos (a b : Nat) : Dbl :=
  let e0 : Int := (ilog2 a a : Int) - (ilog2 b b : Int)
  let ge : Bool :=
    if 0 ≤ e0 then decide (b * 2 ^ e0.toNat ≤ a) else decide (b ≤ a * 2 ^ (-e0).toNat)
  let e : Int := if ge then e0 else e0 - 1
  let u : Int := max e (-1022) - 52
  let n : Nat := if 0 ≤ u then a else a * 2 ^ (-u).toNat
  let d : Nat := if 0 ≤ u then b * 2 ^ u.toNat else b
  let q : Nat := n / d
  let r : Nat := n % d
  let m : Nat :=
    if 2 * r < d then q else if d < 2 * r then q + 1 else if q % 2 = 0 then q else q + 1
  if 0 ≤ u then
    if 2 ^ 1024 ≤ m * 2 ^ u.toNat then pinf else fin ((m * 2 ^ u.toNat : Nat) : ℚ)
  else fin (mkRat m (2 ^ (-u).toNat))

/-- Unary minus. -/
def neg : Dbl → Dbl
  | fin q => fin (-q)
  | pinf => ninf
  | ninf => pinf
  | nan => nan

/-- The binary64 value nearest to a rational: the value of a decimal literal, and the
rounding of the exact result of an operation on finite operands. -/
def round (q : ℚ) : Dbl :=
  if q = 0 then fin 0
  else if 0 < q then roundPos q.num.toNat q.den
  else neg (roundPos (-q).num.toNat q.den)

/-- The conversion of a `size_t` to `double`. -/
def ofNat (n : Nat) : Dbl := round (n : ℚ)

/-- The operator `+` on `double`. -/
def add : Dbl → Dbl → Dbl
  | fin a, fin b => round (a + b)
  | nan, _ => nan
  | _, nan => nan
  | pinf, ninf => nan
  | ninf, pinf => nan
  | pinf, _ => pinf
  | _, pinf => pinf
  | ninf, _ => ninf
  | _, ninf => ninf

/-- The operator `-` on `double`. -/
def sub (a b : Dbl) : Dbl := add a (neg b)

/-- The sign of a non-NaN value: `true` for negative. -/
def isNeg : Dbl → Bool
  | fin q => decide (q < 0)
  | ninf => true
  | _ => false

/-- The infinity of the given sign. -/
def infOfSign (negative : Bool) : Dbl := if negative then ninf else pinf

/-- The operator `*` on `double`. -/
def mul : Dbl → Dbl → Dbl
  | nan, _ => nan
  | _, nan => nan
  | fin a, fin b => round (a * b)
  | fin a, b => if a = 0 then nan else infOfSign (xor (decide (a < 0)) (isNeg b))
  | a, fin b => if b = 0 then nan else infOfSign (xor (isNeg a) (decide (b < 0)))
  | a, b => infOfSign (xor (isNeg a) (isNeg b))

/-- The operator `/` on `double` (a zero divisor is taken as `+0`). -/
def div : Dbl → Dbl → Dbl
  | nan, _ => nan
  | _, nan => nan
  | fin a, fin b =>
    if b = 0 then (if a = 0 then nan else infOfSign (decide (a < 0))) else round (a / b)
  | fin _, _ => fin 0
  | a, fin b => infOfSign (xor (isNeg a) (decide (b < 0)))
  | _, _ => nan

/-- The operator `<` on `double`: false whenever an operand is NaN. -/
def lt : Dbl → Dbl → Bool
  | fin a, fin b => decide (a < b)
  | nan, _ => false
  | _, nan => false
  | ninf, ninf => false
  | ninf, _ => true
  | _, ninf => false
  | pinf, _ => false
  | _, pinf => true

/-- The operator `==` on `double`: false whenever an operand is NaN. -/
def eq : Dbl → Dbl → Bool
  | fin a, fin b => decide (a = b)
  | pinf, pinf => true
  | ninf, ninf => true
  | _, _ => false

/-- The operator `<=` on `double`. -/
def le (a b : Dbl) : Bool := lt a b || eq a b

/-- The operator `>=` on `double`. -/
def ge (a b : Dbl) : Bool := le b a

end Dbl

/-- The class `SensorReading` with a binary64 value. -/
structure SensorReadingD where
  sensorId_ : String
  type_ : SensorType
  value_ : Dbl
  timestamp_ : Int
  deriving DecidableEq

namespace SensorReadingD

/-- The getter `getValue`. -/
def getValue (r : SensorReadingD) : Dbl := r.value_

/-- The setter `setValue`. -/
def setValue (r : SensorReadingD) (value : Dbl) : SensorReadingD :=
  { r with value_ := value }

/-- The method `isValid`: `!sensorId_.empty() && timestamp_ > 0`. -/
def isValid (r : SensorReadingD) : Bool :=
  !r.sensorId_.isEmpty && decide (r.timestamp_ > 0)

end SensorReadingD

/-- The struct `SensorStatistics` with binary64 fields. -/
structure SensorStatisticsD where
  min : Dbl
  max : Dbl
  mean : Dbl
  median : Dbl
  count : Nat
  deriving DecidableEq

/-- The call `std::sort(values.begin(), values.end())` on doubles (the standard leaves it
undefined when a value is NaN). -/
def sortAscendingD (values : List Dbl) : List Dbl :=
  values.insertionSort (fun a b => Dbl.le a b = true)

/-- The loop that copies `reading.getValue()` of every reading into `values`. -/
def extractValuesD (readings : List SensorReadingD) : List Dbl :=
  readings.map SensorReadingD.getValue

/-- The call `std::accumulate(values.begin(), values.end(), 0.0)`, each addition rounded. -/
def accumulateD (values : List Dbl) : Dbl :=
  values.foldl Dbl.add (Dbl.fin 0)

/-- The private method `calculateMedian` in binary64. -/
def calculateMedianD (values : List Dbl) : Dbl :=
  if h : values.length = 0 then Dbl.fin 0
  else if values.length % 2 = 0 then
    Dbl.div (Dbl.add values[values.length / 2 - 1] values[values.length / 2]) (Dbl.fin 2)
  else
    values[values.length / 2]

/-- The method `calculateStatistics` in binary64. -/
def calculateStatisticsD (readings : List SensorReadingD) : SensorStatisticsD :=
  let stats : SensorStatisticsD :=
    { min := Dbl.fin 0, max := Dbl.fin 0, mean := Dbl.fin 0, median := Dbl.fin 0,
      count := readings.length }
  if h : readings.length = 0 then stats
  else
    let values := sortAscendingD (extractValuesD readings)
    have hn : 0 < values.length := by
      simp only [values, sortAscendingD, extractValuesD, List.length_insertionSort,
        List.length_map]
      omega
    { stats with
      min := values[0]
      max := values[values.length - 1]
      mean := Dbl.div (accumulateD values) (Dbl.ofNat values.length)
      median := calculateMedianD values }

/-- The private method `calculateQuartiles` in binary64; an out-of-range read makes the call
fail with `none`. -/
def calculateQuartilesD (sortedValues : List Dbl) : Option (Dbl × Dbl) :=
  let n := sortedValues.length
  let q1Index := n / 4
  let q1 : Option Dbl :=
    if n % 4 = 0 ∨ n % 4 = 1 then sortedValues[q1Index]?
    else do
      let a ← sortedValues[q1Index]?
      let b ← sortedValues[q1Index + 1]?
      pure (Dbl.div (Dbl.add a b) (Dbl.fin 2))
  let q3Index := (3 * n) / 4
  let q3 : Option Dbl :=
    if n % 4 = 0 ∨ n % 4 = 3 then sortedValues[q3Index]?
    else do
      let a ← sortedValues[q3Index]?
      let b ← sortedValues[q3Index + 1]?
      pure (Dbl.div (Dbl.add a b) (Dbl.fin 2))
  do
    let a ← q1
    let b ← q3
    pure (a, b)

/-- The method `removeOutliers` in binary64. -/
def removeOutliersD (readings : List SensorReadingD) : Option (List SensorReadingD) :=
  if readings.length < 4 then some readings
  else do
    let values := sortAscendingD (extractValuesD readings)
    let (q1, q3) ← calculateQuartilesD values
    let iqr := Dbl.sub q3 q1
    let lowerBound := Dbl.sub q1 (Dbl.mul (Dbl.round 1.5) iqr)
    let upperBound := Dbl.add q3 (Dbl.mul (Dbl.round 1.5) iqr)
    pure (readings.filter fun r =>
      Dbl.ge r.getValue lowerBound && Dbl.le r.getValue upperBound)

/-- The call `std::minmax_element` on the non-empty range `first :: rest` with the comparator
`a.getValue() < b.getValue()` on doubles. -/
def minmaxElementD (first : SensorReadingD) (rest : List SensorReadingD) :
    SensorReadingD × SensorReadingD :=
  rest.foldl (fun acc r =>
    (if Dbl.lt r.getValue acc.1.getValue then r else acc.1,
     if Dbl.lt r.getValue acc.2.getValue then acc.2 else r)) (first, first)

/-- The method `normalizeValues` in binary64. -/
def normalizeValuesD (readings : List SensorReadingD) : List SensorReadingD :=
  match readings with
  | [] => []
  | first :: rest =>
    let minmax := minmaxElementD first rest
    let minVal := minmax.1.getValue
    let maxVal := minmax.2.getValue
    let range := Dbl.sub maxVal minVal
    if Dbl.eq range (Dbl.fin 0) then first :: rest
    else (first :: rest).map fun reading =>
      reading.setValue (Dbl.div (Dbl.sub reading.getValue minVal) range)

/-- A valid reading of sensor "S1" with the binary64 value nearest to `v`. -/
def mkReadingD (v : ℚ) : SensorReadingD :=
  { sensorId_ := "S1", type_ := SensorType.TEMPERATURE, value_ := Dbl.round v,
    timestamp_ := 1000 }

/-- Three readings with the binary64 value of the literal `0.1`. -/
def exampleTenthsD : List SensorReadingD := [1 / 10, 1 / 10, 1 / 10].map mkReadingD

/-- Four readings with the binary64 values of the literals `-2.0`, `-0.2`, `0.5`, `1.0`. -/
def exampleBoundaryD : List SensorReadingD := [-2, -2 / 10, 5 / 10, 1].map mkReadingD

/-- The readings of `exampleBoundaryD` with their values as exact numbers (the binary64
value of `-0.2` is `-3602879701896397 / 2 ^ 54`). -/
def exampleBoundary : List SensorReading :=
  [-2, -3602879701896397 / 2 ^ 54, 1 / 2, 1].map mkReading

/-- A single reading whose value is `+infinity`. -/
def exampleInfD : List SensorReadingD :=
  [ { sensorId_ := "S1", type_ := SensorType.TEMPERATURE, value_ := Dbl.pinf,
      timestamp_ := 1000 } ]

/-- Four readings with the values 0, 2^53 - 2, 2^53 - 1 and 2^54 - 6, all binary64 values. -/
def exampleCloseD : List SensorReadingD :=
  [0, 9007199254740990, 9007199254740991, 18014398509481978].map mkReadingD

/-- Two readings with the binary64 value of `0.1`, on different sensors. -/
def exampleConstantD : List SensorReadingD :=
  [ { sensorId_ := "S1", type_ := SensorType.TEMPERATURE, value_ := Dbl.round (1 / 10),
      timestamp_ := 1000 },
    { sensorId_ := "S2", type_ := SensorType.PRESSURE, value_ := Dbl.round (1 / 10),
      timestamp_ := 2000 } ]

/-- Two readings with the binary64 values of `1e308` and `1.5e308`. -/
def exampleLargeD : List SensorReadingD := [10 ^ 308, 15 * 10 ^ 307].map mkReadingD

theorem sortAscending_sorted (v : List ℚ) : (sortAscending v).Sorted (· ≤ ·) :=
  List.sorted_insertionSort (· ≤ ·) v

theorem sortAscending_perm (v : List ℚ) : (sortAscending v).Perm v :=
  List.perm_insertionSort (· ≤ ·) v

theorem sortAscending_length (v : List ℚ) : (sortAscending v).length = v.length :=
  List.length_insertionSort (· ≤ ·) v

/-- Any ascending arrangement of the same values is the list `std::sort` produces. -/
theorem sortAscending_unique (v s : List ℚ) (hs : s.Sorted (· ≤ ·)) (hp : s.Perm v) :
    s = sortAscending v :=
  List.eq_of_perm_of_sorted (hp.trans (sortAscending_perm v).symm) hs (sortAscending_sorted v)

theorem sorted_getElem_le (s : List ℚ) (hs : s.Sorted (· ≤ ·)) (i j : Nat) (hij : i ≤ j)
    (hj : j < s.length) : s[i] ≤ s[j] := by
  rcases Nat.eq_or_lt_of_le hij with h | h
  · subst h; exact le_refl _
  · exact (List.pairwise_iff_getElem.mp hs) i j (by omega) hj h

theorem accumulate_eq_sum (v : List ℚ) : accumulate v = v.sum := by
  unfold accumulate
  exact List.sum_eq_foldl.symm

theorem extractValues_length (rs : List SensorReading) :
    (extractValues rs).length = rs.length := by
  simp [extractValues]

theorem sortedValues_length (rs : List SensorReading) :
    (sortAscending (extractValues rs)).length = rs.length := by
  rw [sortAscending_length, extractValues_length]

/-! ## The fields of `calculateStatistics` on a non-empty input -/

theorem calculateStatistics_count (rs : List SensorReading) :
    (calculateStatistics rs).count = rs.length := by
  unfold calculateStatistics
  by_cases h : rs.length = 0 <;> simp [h]

theorem calculateStatistics_min_eq (rs : List SensorReading) (h : rs ≠ []) :
    (sortAscending (extractValues rs))[0]? = some (calculateStatistics rs).min := by
  have hl : rs.length ≠ 0 := by simpa using h
  have hn : 0 < (sortAscending (extractValues rs)).length := by
    rw [sortedValues_length]; omega
  unfold calculateStatistics
  simp only [hl, ↓reduceDIte]
  exact List.getElem?_eq_getElem hn

theorem calculateStatistics_max_eq (rs : List SensorReading) (h : rs ≠ []) :
    (sortAscending (extractValues rs))[rs.length - 1]? = some (calculateStatistics rs).max := by
  have hl : rs.length ≠ 0 := by simpa using h
  have hn : rs.length - 1 < (sortAscending (extractValues rs)).length := by
    rw [sortedValues_length]; omega
  unfold calculateStatistics
  simp only [hl, ↓reduceDIte]
  rw [List.getElem?_eq_getElem hn]
  simp only [sortedValues_length]

theorem calculateStatistics_mean_eq (rs : List SensorReading) (h : rs ≠ []) :
    (calculateStatistics rs).mean = (extractValues rs).sum / (rs.length : ℚ) := by
  have hl : rs.length ≠ 0 := by simpa using h
  unfold calculateStatistics
  simp only [hl, ↓reduceDIte]
  rw [accumulate_eq_sum, (sortAscending_perm _).sum_eq, sortedValues_length]

theorem calculateStatistics_median_eq (rs : List SensorReading) (h : rs ≠ []) :
    (calculateStatistics rs).median = calculateMedian (sortAscending (extractValues rs)) := by
  have hl : rs.length ≠ 0 := by simpa using h
  unfold calculateStatistics
  simp only [hl, ↓reduceDIte]

/-- Every value of the input lies between the reported minimum and maximum. -/
theorem calculateStatistics_bounds (rs : List SensorReading) (h : rs ≠ []) (x : ℚ)
    (hx : x ∈ extractValues rs) :
    (calculateStatistics rs).min ≤ x ∧ x ≤ (calculateStatistics rs).max := by
  have hl : rs.length ≠ 0 := by simpa using h
  have hlen := sortedValues_length rs
  have hs := sortAscending_sorted (extractValues rs)
  have hx2 : x ∈ sortAscending (extractValues rs) := (sortAscending_perm _).mem_iff.mpr hx
  obtain ⟨i, hi, rfl⟩ := List.mem_iff_getElem.mp hx2
  obtain ⟨h0, hmin⟩ := List.getElem?_eq_some.mp (calculateStatistics_min_eq rs h)
  obtain ⟨h1, hmax⟩ := List.getElem?_eq_some.mp (calculateStatistics_max_eq rs h)
  rw [← hmin, ← hmax]
  exact ⟨sorted_getElem_le _ hs 0 i (Nat.zero_le i) hi,
    sorted_getElem_le _ hs i (rs.length - 1) (by omega) h1⟩

/-- The median of a non-empty list lies between any lower and upper bound of its elements. -/
theorem calculateMedian_between (v : List ℚ) (hv : v ≠ []) (lo hi : ℚ)
    (hb : ∀ x ∈ v, lo ≤ x ∧ x ≤ hi) : lo ≤ calculateMedian v ∧ calculateMedian v ≤ hi := by
  have hl : v.length ≠ 0 := by simpa using hv
  unfold calculateMedian
  simp only [hl, ↓reduceDIte]
  have hmid : v.length / 2 < v.length := by omega
  have hb2 := hb _ (List.getElem_mem hmid)
  split
  · have hpre : v.length / 2 - 1 < v.length := by omega
    have hb1 := hb _ (List.getElem_mem hpre)
    constructor
    · linarith [hb1.1, hb2.1]
    · linarith [hb1.2, hb2.2]
  · exact hb2

/-- C1 (amended): over exact arithmetic, for every non-empty collection of readings the
statistics satisfy `min ≤ mean ≤ max` and `min ≤ median ≤ max`. -/
theorem calculateStatistics_mean_median_within (rs : List SensorReading) (h : rs ≠ []) :
    (calculateStatistics rs).min ≤ (calculateStatistics rs).mean ∧
    (calculateStatistics rs).mean ≤ (calculateStatistics rs).max ∧
    (calculateStatistics rs).min ≤ (calculateStatistics rs).median ∧
    (calculateStatistics rs).median ≤ (calculateStatistics rs).max := by
  have hl : 0 < rs.length := List.length_pos.mpr h
  have hq : (0 : ℚ) < (rs.length : ℚ) := by exact_mod_cast hl
  have hb := calculateStatistics_bounds rs h
  have hlen := extractValues_length rs
  have hlo := List.card_nsmul_le_sum (extractValues rs) (calculateStatistics rs).min
    (fun x hx => (hb x hx).1)
  have hhi := List.sum_le_card_nsmul (extractValues rs) (calculateStatistics rs).max
    (fun x hx => (hb x hx).2)
  rw [hlen, nsmul_eq_mul] at hlo hhi
  have hmed := calculateMedian_between (sortAscending (extractValues rs))
    (by
      intro hnil
      have := sortedValues_length rs
      rw [hnil] at this
      simp at this
      omega)
    (calculateStatistics rs).min (calculateStatistics rs).max
    (fun x hx => hb x ((sortAscending_perm _).mem_iff.mp hx))
  rw [← calculateStatistics_median_eq rs h] at hmed
  refine ⟨?_, ?_, hmed.1, hmed.2⟩
  · rw [calculateStatistics_mean_eq rs h, le_div_iff₀ hq]
    linarith
  · rw [calculateStatistics_mean_eq rs h, div_le_iff₀ hq]
    linarith

theorem calculateStatistics_mean_median_within_witness :
    exampleFour ≠ [] ∧
    (calculateStatistics exampleFour).min ≤ (calculateStatistics exampleFour).mean ∧
    (calculateStatistics exampleFour).mean ≤ (calculateStatistics exampleFour).max ∧
    (calculateStatistics exampleFour).min ≤ (calculateStatistics exampleFour).median ∧
    (calculateStatistics exampleFour).median ≤ (calculateStatistics exampleFour).max :=
  ⟨by decide, calculateStatistics_mean_median_within exampleFour (by decide)⟩

/-- C2: for a non-empty collection `min` is the least and `max` the greatest value:
every reading value lies between them and each is the value of some reading of the input. -/
theorem calculateStatistics_min_max_extremes (rs : List SensorReading) (h : rs ≠ []) :
    (∀ r ∈ rs, (calculateStatistics rs).min ≤ r.getValue ∧
      r.getValue ≤ (calculateStatistics rs).max) ∧
    (∃ r ∈ rs, r.getValue = (calculateStatistics rs).min) ∧
    (∃ r ∈ rs, r.getValue = (calculateStatistics rs).max) := by
  refine ⟨?_, ?_, ?_⟩
  · intro r hr
    exact calculateStatistics_bounds rs h r.getValue (List.mem_map_of_mem _ hr)
  · obtain ⟨h0, hmin⟩ := List.getElem?_eq_some.mp (calculateStatistics_min_eq rs h)
    have hmem : (calculateStatistics rs).min ∈ extractValues rs := by
      rw [← hmin]
      exact (sortAscending_perm _).mem_iff.mp (List.getElem_mem h0)
    obtain ⟨r, hr, hv⟩ := List.mem_map.mp hmem
    exact ⟨r, hr, hv⟩
  · obtain ⟨h1, hmax⟩ := List.getElem?_eq_some.mp (calculateStatistics_max_eq rs h)
    have hmem : (calculateStatistics rs).max ∈ extractValues rs := by
      rw [← hmax]
      exact (sortAscending_perm _).mem_iff.mp (List.getElem_mem h1)
    obtain ⟨r, hr, hv⟩ := List.mem_map.mp hmem
    exact ⟨r, hr, hv⟩

theorem calculateStatistics_min_max_extremes_witness :
    exampleFour ≠ [] ∧
    (calculateStatistics exampleFour).min = 10 ∧ (calculateStatistics exampleFour).max = 40 ∧
    (∀ r ∈ exampleFour, (calculateStatistics exampleFour).min ≤ r.getValue ∧
      r.getValue ≤ (calculateStatistics exampleFour).max) ∧
    (∃ r ∈ exampleFour, r.getValue = (calculateStatistics exampleFour).min) ∧
    (∃ r ∈ exampleFour, r.getValue = (calculateStatistics exampleFour).max) :=
  ⟨by decide, by decide, by decide,
    calculateStatistics_min_max_extremes exampleFour (by decide)⟩

/-- C5: on the empty collection `calculateStatistics` returns the all-zero statistics, and
`count = 0` is returned only for the empty collection. -/
theorem calculateStatistics_empty (rs : List SensorReading) :
    calculateStatistics [] = { min := 0, max := 0, mean := 0, median := 0, count := 0 } ∧
    ((calculateStatistics rs).count = 0 ↔ rs = []) := by
  constructor
  · rfl
  · rw [calculateStatistics_count]
    exact List.length_eq_zero

/-! ## Outlier removal -/

/-- On at least four ascending values every read of `calculateQuartiles` is in range: the
call returns a pair, and the pair is the spec's `Q1` and `Q3`. -/
theorem calculateQuartiles_spec (s : List ℚ) (h : 4 ≤ s.length) :
    ∃ q1 q3, calculateQuartiles s = some (q1, q3) ∧ specQ1 s = some q1 ∧ specQ3 s = some q3 := by
  have h1 : s[s.length / 4]? = some s[s.length / 4] := List.getElem?_eq_getElem (by omega)
  have h2 : s[s.length / 4 + 1]? = some s[s.length / 4 + 1] :=
    List.getElem?_eq_getElem (by omega)
  have h3 : s[3 * s.length / 4]? = some s[3 * s.length / 4] :=
    List.getElem?_eq_getElem (by omega)
  by_cases c1 : s.length % 4 = 0 ∨ s.length % 4 = 1
  · by_cases c3 : s.length % 4 = 0 ∨ s.length % 4 = 3
    · refine ⟨s[s.length / 4], s[3 * s.length / 4], ?_, ?_, ?_⟩
      · simp [calculateQuartiles, c1, c3, h1, h3]
      · simp [specQ1, c1, h1]
      · simp [specQ3, c3, h3]
    · have h4 : s[3 * s.length / 4 + 1]? = some s[3 * s.length / 4 + 1] :=
        List.getElem?_eq_getElem (by omega)
      refine ⟨s[s.length / 4], (s[3 * s.length / 4] + s[3 * s.length / 4 + 1]) / 2, ?_, ?_, ?_⟩
      · simp [calculateQuartiles, c1, c3, h1, h3, h4]
      · simp [specQ1, c1, h1]
      · simp [specQ3, c3, h3, h4]
  · by_cases c3 : s.length % 4 = 0 ∨ s.length % 4 = 3
    · refine ⟨(s[s.length / 4] + s[s.length / 4 + 1]) / 2, s[3 * s.length / 4], ?_, ?_, ?_⟩
      · simp [calculateQuartiles, c1, c3, h1, h2, h3]
      · simp [specQ1, c1, h1, h2]
      · simp [specQ3, c3, h3]
    · have h4 : s[3 * s.length / 4 + 1]? = some s[3 * s.length / 4 + 1] :=
        List.getElem?_eq_getElem (by omega)
      refine ⟨(s[s.length / 4] + s[s.length / 4 + 1]) / 2,
        (s[3 * s.length / 4] + s[3 * s.length / 4 + 1]) / 2, ?_, ?_, ?_⟩
      · simp [calculateQuartiles, c1, c3, h1, h2, h3, h4]
      · simp [specQ1, c1, h1, h2]
      · simp [specQ3, c3, h3, h4]

/-- With the quartiles known, `removeOutliers` is the filter by the inclusive bounds. -/
theorem removeOutliers_of_quartiles (rs : List SensorReading) (h : 4 ≤ rs.length) (q1 q3 : ℚ)
    (hq : calculateQuartiles (sortAscending (extractValues rs)) = some (q1, q3)) :
    removeOutliers rs = some (rs.filter fun r =>
      decide (q1 - 1.5 * (q3 - q1) ≤ r.getValue ∧ r.getValue ≤ q3 + 1.5 * (q3 - q1))) := by
  have hlt : ¬ rs.length < 4 := by omega
  unfold removeOutliers
  simp only [hlt, ↓reduceIte, hq, Option.bind_eq_bind, Option.some_bind, Option.pure_def,
    ge_iff_le, Bool.decide_and]

/-- `removeOutliers` always returns, and what it returns is a filter of its input. -/
theorem removeOutliers_total (rs : List SensorReading) :
    ∃ p : SensorReading → Bool, removeOutliers rs = some (rs.filter p) := by
  by_cases h : rs.length < 4
  · refine ⟨fun _ => true, ?_⟩
    simp [removeOutliers, h]
  · obtain ⟨q1, q3, hq, -, -⟩ := calculateQuartiles_spec (sortAscending (extractValues rs))
      (by rw [sortedValues_length]; omega)
    exact ⟨_, removeOutliers_of_quartiles rs (by omega) q1 q3 hq⟩

/-- C6: for every collection of fewer than 4 readings, whatever their values,
`removeOutliers` returns the input collection unchanged. -/
theorem removeOutliers_short_identity (rs : List SensorReading) (h : rs.length < 4) :
    removeOutliers rs = some rs := by
  unfold removeOutliers
  simp only [h, ↓reduceIte]

theorem removeOutliers_short_identity_witness :
    (exampleOutliers.take 3).length < 4 ∧
    removeOutliers (exampleOutliers.take 3) = some (exampleOutliers.take 3) :=
  ⟨by decide, removeOutliers_short_identity (exampleOutliers.take 3) (by decide)⟩

/-- C7 (amended): over exact arithmetic, for `n ≥ 4` readings whose values sorted ascending
are `s`, with `Q1` and `Q3` as the
spec's quartile algorithm gives them and `IQR = Q3 - Q1`, `removeOutliers` returns exactly
the input readings, in their original order, whose value `v` satisfies
`Q1 - 1.5*IQR ≤ v ≤ Q3 + 1.5*IQR`. -/
theorem removeOutliers_iqr_filter (rs : List SensorReading) (h : 4 ≤ rs.length)
    (s : List ℚ) (hs : s.Sorted (· ≤ ·)) (hp : s.Perm (rs.map SensorReading.getValue)) :
    ∃ q1 q3, specQ1 s = some q1 ∧ specQ3 s = some q3 ∧
      removeOutliers rs = some (rs.filter fun r =>
        decide (q1 - 1.5 * (q3 - q1) ≤ r.getValue ∧ r.getValue ≤ q3 + 1.5 * (q3 - q1))) := by
  have hsv : s = sortAscending (extractValues rs) := sortAscending_unique _ s hs hp
  have hlen : 4 ≤ s.length := by rw [hsv, sortedValues_length]; exact h
  obtain ⟨q1, q3, hq, h1, h3⟩ := calculateQuartiles_spec s hlen
  rw [hsv] at hq
  exact ⟨q1, q3, h1, h3, removeOutliers_of_quartiles rs h q1 q3 hq⟩

theorem removeOutliers_iqr_filter_witness :
    4 ≤ exampleOutliers.length ∧
    ∃ q1 q3, specQ1 [-1000, 20, 21, 22, 23, 24, 25, 26, 27, 28, 29, 1000] = some q1 ∧
      specQ3 [-1000, 20, 21, 22, 23, 24, 25, 26, 27, 28, 29, 1000] = some q3 ∧
      removeOutliers exampleOutliers = some (exampleOutliers.filter fun r =>
        decide (q1 - 1.5 * (q3 - q1) ≤ r.getValue ∧ r.getValue ≤ q3 + 1.5 * (q3 - q1))) :=
  ⟨by decide, removeOutliers_iqr_filter exampleOutliers (by decide)
    [-1000, 20, 21, 22, 23, 24, 25, 26, 27, 28, 29, 1000] (by decide) (by decide)⟩

/-- The quartiles of the twelve test values: `Q1 = 22` and `Q3 = 28`. -/
theorem calculateQuartiles_test_values :
    calculateQuartiles
      (sortAscending [20, 21, 22, 23, 24, 25, 26, 27, 28, 29, 1000, -1000]) = some (22, 28) := by
  decide

/-- C8: applied to 12 readings with values 20, 21, .., 29, 1000, -1000 in that order,
`removeOutliers` removes exactly the two readings with values 1000 and -1000 and returns
the other 10 readings in their original order. -/
theorem removeOutliers_test_vector (rs : List SensorReading)
    (hv : rs.map SensorReading.getValue
      = [20, 21, 22, 23, 24, 25, 26, 27, 28, 29, 1000, -1000]) :
    removeOutliers rs = some (rs.take 10) := by
  have hlen : rs.length = 12 := by
    have := congrArg List.length hv
    simpa using this
  have hq : calculateQuartiles (sortAscending (extractValues rs)) = some (22, 28) := by
    unfold extractValues
    rw [hv]
    exact calculateQuartiles_test_values
  rw [removeOutliers_of_quartiles rs (by omega) 22 28 hq]
  congr 1
  rcases rs with _ | ⟨r0, _ | ⟨r1, _ | ⟨r2, _ | ⟨r3, _ | ⟨r4, _ | ⟨r5, _ | ⟨r6, _ | ⟨r7,
    _ | ⟨r8, _ | ⟨r9, _ | ⟨r10, _ | ⟨r11, _ | ⟨r12, t⟩⟩⟩⟩⟩⟩⟩⟩⟩⟩⟩⟩⟩ <;>
    simp only [List.length_nil, List.length_cons] at hlen <;> try omega
  simp only [List.map_cons, List.map_nil, List.cons.injEq, and_true] at hv
  obtain ⟨e0, e1, e2, e3, e4, e5, e6, e7, e8, e9, e10, e11⟩ := hv
  simp only [List.filter_cons, List.filter_nil, e0, e1, e2, e3, e4, e5, e6, e7, e8, e9, e10, e11]
  norm_num

theorem removeOutliers_test_vector_witness :
    exampleOutliers.map SensorReading.getValue
      = [20, 21, 22, 23, 24, 25, 26, 27, 28, 29, 1000, -1000] ∧
    removeOutliers exampleOutliers = some (exampleOutliers.take 10) :=
  ⟨by decide, removeOutliers_test_vector exampleOutliers (by decide)⟩

/-! ## The processing pipeline -/

/-- The method `process` is `removeOutliers` after the validity filter. -/
theorem process_eq (rs : List SensorReading) :
    process rs = removeOutliers (rs.filter fun r => r.isValid) := by
  unfold process
  by_cases he : (rs.filter fun r => r.isValid) = []
  · simp [he, removeOutliers]
  · have : (rs.filter fun r => r.isValid).isEmpty = false := by
      simpa [List.isEmpty_iff] using he
    simp only [this, Bool.false_eq_true, ↓reduceIte]

/-- C9: the output of `process` is a subsequence of the input that preserves relative
order, so it is never longer than the input, and every reading in it satisfies `isValid()`. -/
theorem process_sublist_valid (rs : List SensorReading) :
    ∃ out, process rs = some out ∧ out.Sublist rs ∧ out.length ≤ rs.length ∧
      ∀ r ∈ out, r.isValid = true := by
  obtain ⟨p, hp⟩ := removeOutliers_total (rs.filter fun r => r.isValid)
  refine ⟨_, (process_eq rs).trans hp, ?_, ?_, ?_⟩
  · exact (List.filter_sublist _).trans (List.filter_sublist _)
  · exact ((List.filter_sublist _).trans (List.filter_sublist _)).length_le
  · intro r hr
    have hr2 := (List.mem_filter.mp hr).1
    exact (List.mem_filter.mp hr2).2

/-- C10: `process rs` is `removeOutliers` applied to the order-preserving sub-collection of
valid readings; so two inputs with the same valid readings give the same result (invalid
readings never influence the bounds), and when no reading is valid the result is empty. -/
theorem process_refines_removeOutliers (rs : List SensorReading) :
    process rs = removeOutliers (rs.filter fun r => r.isValid) ∧
    (∀ rs2 : List SensorReading,
      (rs2.filter fun r => r.isValid) = (rs.filter fun r => r.isValid) →
      process rs2 = process rs) ∧
    ((∀ r ∈ rs, r.isValid = false) → process rs = some []) := by
  refine ⟨process_eq rs, ?_, ?_⟩
  · intro rs2 h
    rw [process_eq, process_eq, h]
  · intro h
    have hnil : (rs.filter fun r => r.isValid) = [] := by
      rw [List.filter_eq_nil_iff]
      intro r hr
      simp [h r hr]
    rw [process_eq, hnil]
    rfl

theorem process_refines_removeOutliers_witness :
    process exampleProcess = some [exampleProcess.get ⟨0, by decide⟩,
      exampleProcess.get ⟨3, by decide⟩] ∧
    process ((exampleProcess.take 3).drop 1) = some [] :=
  ⟨by decide, (process_refines_removeOutliers ((exampleProcess.take 3).drop 1)).2.2
    (by decide)⟩

/-! ## The filters -/

theorem copyIf_loop {α : Type} (pred : α → Bool) (xs out : List α) :
    xs.foldl (fun out x => if pred x then out ++ [x] else out) out = out ++ xs.filter pred := by
  induction xs generalizing out with
  | nil => simp
  | cons x xs ih =>
    rw [List.foldl_cons, ih]
    by_cases hx : pred x = true
    · simp [hx]
    · simp [hx]

/-- The loop of `std::copy_if` into an empty vector computes the order-preserving filter. -/
theorem copyIf_eq_filter {α : Type} (pred : α → Bool) (xs : List α) :
    copyIf pred xs = xs.filter pred := by
  unfold copyIf
  rw [copyIf_loop]
  rfl

/-- C11: `filterByType` returns the input readings whose category equals `c`, all of them
and no others, in their original relative order. -/
theorem filterByType_eq_filter (rs : List SensorReading) (c : SensorType) :
    filterByType rs c = rs.filter (fun r => decide (r.getType = c)) ∧
    (filterByType rs c).Sublist rs ∧
    ∀ r, r ∈ filterByType rs c ↔ r ∈ rs ∧ r.getType = c := by
  have h : filterByType rs c = rs.filter (fun r => decide (r.getType = c)) :=
    copyIf_eq_filter _ rs
  refine ⟨h, ?_, ?_⟩
  · rw [h]; exact List.filter_sublist rs
  · intro r
    rw [h, List.mem_filter, decide_eq_true_eq]

/-- C12: `filterBySensorId` returns the input readings whose sensorId is exactly `id`
(whole string, case-sensitive: "S1" is matched, "s1" and "S" are not), all of them and no
others, in their original relative order. -/
theorem filterBySensorId_eq_filter (rs : List SensorReading) (id : String) :
    filterBySensorId rs id = rs.filter (fun r => decide (r.getSensorId = id)) ∧
    (filterBySensorId rs id).Sublist rs ∧
    (∀ r, r ∈ filterBySensorId rs id ↔ r ∈ rs ∧ r.getSensorId = id) ∧
    filterBySensorId exampleIds "S1"
      = [exampleIds.get ⟨0, by decide⟩, exampleIds.get ⟨2, by decide⟩] ∧
    filterBySensorId exampleIds "s1" = [] ∧ filterBySensorId exampleIds "S" = [] := by
  have h : filterBySensorId rs id = rs.filter (fun r => decide (r.getSensorId = id)) :=
    copyIf_eq_filter _ rs
  refine ⟨h, ?_, ?_, by decide, by decide, by decide⟩
  · rw [h]; exact List.filter_sublist rs
  · intro r
    rw [h, List.mem_filter, decide_eq_true_eq]

/-- C13: `filterByValueRange` returns exactly the input readings whose value `v` satisfies
`min ≤ v ≤ max` (both bounds inclusive), in their original relative order; for readings with
values 20, 25, 30, 35 and the bounds 22 and 32 the result has the values 25, 30. -/
theorem filterByValueRange_eq_filter (rs : List SensorReading) (lo hi : ℚ) :
    filterByValueRange rs lo hi
      = rs.filter (fun r => decide (lo ≤ r.getValue ∧ r.getValue ≤ hi)) ∧
    (filterByValueRange rs lo hi).Sublist rs ∧
    (∀ r, r ∈ filterByValueRange rs lo hi ↔ r ∈ rs ∧ lo ≤ r.getValue ∧ r.getValue ≤ hi) ∧
    (rs.map SensorReading.getValue = [20, 25, 30, 35] →
      (filterByValueRange rs 22 32).map SensorReading.getValue = [25, 30]) := by
  have h : ∀ a b : ℚ, filterByValueRange rs a b
      = rs.filter (fun r => decide (a ≤ r.getValue ∧ r.getValue ≤ b)) := by
    intro a b
    unfold filterByValueRange
    rw [copyIf_eq_filter]
    simp only [ge_iff_le, Bool.decide_and]
  refine ⟨h lo hi, ?_, ?_, ?_⟩
  · rw [h]; exact List.filter_sublist rs
  · intro r
    rw [h, List.mem_filter, decide_eq_true_eq]
  · intro hv
    rw [h]
    rcases rs with _ | ⟨r0, _ | ⟨r1, _ | ⟨r2, _ | ⟨r3, _ | ⟨r4, t⟩⟩⟩⟩⟩ <;>
      simp only [List.map_cons, List.map_nil, List.cons.injEq, and_true, reduceCtorEq,
        and_false] at hv
    obtain ⟨e0, e1, e2, e3⟩ := hv
    simp only [List.filter_cons, List.filter_nil, e0, e1, e2, e3]
    norm_num
    exact ⟨e1, e2⟩

theorem filterByValueRange_eq_filter_witness :
    exampleRange.map SensorReading.getValue = [20, 25, 30, 35] ∧
    (filterByValueRange exampleRange 22 32).map SensorReading.getValue = [25, 30] ∧
    filterByValueRange exampleRange 25 30
      = [exampleRange.get ⟨1, by decide⟩, exampleRange.get ⟨2, by decide⟩] :=
  ⟨by decide, (filterByValueRange_eq_filter exampleRange 22 32).2.2.2 (by decide), by decide⟩

/-! ## Normalisation -/

/-- The scan of `std::minmax_element` returns two elements of the range whose values bound
the value of every element of the range. -/
theorem minmaxElement_spec (first : SensorReading) (rest : List SensorReading) :
    (minmaxElement first rest).1 ∈ first :: rest ∧
    (minmaxElement first rest).2 ∈ first :: rest ∧
    ∀ r ∈ first :: rest, (minmaxElement first rest).1.getValue ≤ r.getValue ∧
      r.getValue ≤ (minmaxElement first rest).2.getValue := by
  induction rest using List.reverseRecOn with
  | nil => simp [minmaxElement]
  | append_singleton l a ih =>
    obtain ⟨h1, h2, h3⟩ := ih
    have hstep : minmaxElement first (l ++ [a]) =
        (if a.getValue < (minmaxElement first l).1.getValue then a
          else (minmaxElement first l).1,
         if a.getValue < (minmaxElement first l).2.getValue then (minmaxElement first l).2
          else a) := by
      unfold minmaxElement
      rw [List.foldl_concat]
    rw [hstep]
    have hmm := h3 _ h1
    refine ⟨?_, ?_, ?_⟩
    · show (if a.getValue < (minmaxElement first l).1.getValue then a
        else (minmaxElement first l).1) ∈ first :: (l ++ [a])
      split
      · simp
      · rcases List.mem_cons.mp h1 with h | h
        · simp [h]
        · simp [h]
    · show (if a.getValue < (minmaxElement first l).2.getValue then (minmaxElement first l).2
        else a) ∈ first :: (l ++ [a])
      split
      · rcases List.mem_cons.mp h2 with h | h
        · simp [h]
        · simp [h]
      · simp
    · intro r hr
      have hr2 : r ∈ first :: l ∨ r = a := by
        rcases List.mem_cons.mp hr with h | h
        · exact Or.inl (by simp [h])
        · rcases List.mem_append.mp h with h | h
          · exact Or.inl (List.mem_cons_of_mem _ h)
          · exact Or.inr (by simpa using h)
      show (if a.getValue < (minmaxElement first l).1.getValue then a
          else (minmaxElement first l).1).getValue ≤ r.getValue ∧
        r.getValue ≤ (if a.getValue < (minmaxElement first l).2.getValue
          then (minmaxElement first l).2 else a).getValue
      rcases hr2 with h | h
      · have hb := h3 r h
        constructor
        · split
          · linarith [hb.1]
          · exact hb.1
        · split
          · exact hb.2
          · linarith [hb.2]
      · subst h
        constructor
        · split
          · exact le_refl _
          · linarith
        · split
          · linarith
          · exact le_refl _

/-- With `m` the least and `M` the greatest value of the collection, `normalizeValues`
leaves it unchanged when `M - m = 0` and rescales every value otherwise. -/
theorem normalizeValues_eq (rs : List SensorReading) (m M : ℚ)
    (hm : m ∈ extractValues rs ∧ ∀ v ∈ extractValues rs, m ≤ v)
    (hM : M ∈ extractValues rs ∧ ∀ v ∈ extractValues rs, v ≤ M) :
    normalizeValues rs =
      if M - m = 0 then rs
      else rs.map fun r => r.setValue ((r.getValue - m) / (M - m)) := by
  cases rs with
  | nil => simp [extractValues] at hm
  | cons first rest =>
    obtain ⟨h1, h2, h3⟩ := minmaxElement_spec first rest
    have hmin : (minmaxElement first rest).1.getValue = m := by
      apply le_antisymm
      · obtain ⟨r, hr, hv⟩ := List.mem_map.mp hm.1
        rw [← hv]
        exact (h3 r hr).1
      · exact hm.2 _ (List.mem_map_of_mem _ h1)
    have hmax : (minmaxElement first rest).2.getValue = M := by
      apply le_antisymm
      · exact hM.2 _ (List.mem_map_of_mem _ h2)
      · obtain ⟨r, hr, hv⟩ := List.mem_map.mp hM.1
        rw [← hv]
        exact (h3 r hr).2
    unfold normalizeValues
    simp only [hmin, hmax]

/-- A collection whose values are all equal is returned as it is: the range is `0`. -/
theorem normalizeValues_const (rs : List SensorReading)
    (h : ∀ a ∈ rs, ∀ b ∈ rs, a.getValue = b.getValue) : normalizeValues rs = rs := by
  cases rs with
  | nil => rfl
  | cons first rest =>
    have hm : first.getValue ∈ extractValues (first :: rest) ∧
        ∀ v ∈ extractValues (first :: rest), first.getValue ≤ v := by
      refine ⟨List.mem_map_of_mem _ (List.mem_cons_self _ _), ?_⟩
      intro v hv
      obtain ⟨r, hr, rfl⟩ := List.mem_map.mp hv
      exact le_of_eq (h first (List.mem_cons_self _ _) r hr)
    have hM : first.getValue ∈ extractValues (first :: rest) ∧
        ∀ v ∈ extractValues (first :: rest), v ≤ first.getValue := by
      refine ⟨List.mem_map_of_mem _ (List.mem_cons_self _ _), ?_⟩
      intro v hv
      obtain ⟨r, hr, rfl⟩ := List.mem_map.mp hv
      exact le_of_eq (h r hr first (List.mem_cons_self _ _))
    rw [normalizeValues_eq _ _ _ hm hM]
    simp

/-- When two readings differ in value, the least value is below the greatest. -/
theorem least_lt_greatest (rs : List SensorReading) (m M : ℚ)
    (hne : ∃ a ∈ rs, ∃ b ∈ rs, a.getValue ≠ b.getValue)
    (hm : m ∈ extractValues rs ∧ ∀ v ∈ extractValues rs, m ≤ v)
    (hM : M ∈ extractValues rs ∧ ∀ v ∈ extractValues rs, v ≤ M) : m < M := by
  obtain ⟨a, ha, b, hb, hab⟩ := hne
  have ha1 := hm.2 _ (List.mem_map_of_mem SensorReading.getValue ha)
  have ha2 := hM.2 _ (List.mem_map_of_mem SensorReading.getValue ha)
  have hb1 := hm.2 _ (List.mem_map_of_mem SensorReading.getValue hb)
  have hb2 := hM.2 _ (List.mem_map_of_mem SensorReading.getValue hb)
  by_contra hlt
  have hle : M ≤ m := not_lt.mp hlt
  exact hab (by linarith)

/-- On a collection with two different values every value is rescaled. -/
theorem normalizeValues_map (rs : List SensorReading) (m M : ℚ)
    (hne : ∃ a ∈ rs, ∃ b ∈ rs, a.getValue ≠ b.getValue)
    (hm : m ∈ extractValues rs ∧ ∀ v ∈ extractValues rs, m ≤ v)
    (hM : M ∈ extractValues rs ∧ ∀ v ∈ extractValues rs, v ≤ M) :
    normalizeValues rs = rs.map fun r => r.setValue ((r.getValue - m) / (M - m)) := by
  have hlt := least_lt_greatest rs m M hne hm hM
  have hr : ¬ M - m = 0 := by
    intro h0
    linarith
  rw [normalizeValues_eq rs m M hm hM]
  simp only [hr, ↓reduceIte]

/-- Over exact arithmetic `normalizeValues` leaves the collection exactly unchanged when it is
empty, when it
has a single reading, and whenever all readings have the same value; in the last two cases
the computed range is 0, so the guard returns before the loop that divides by the range. -/
theorem normalizeValues_noop (rs : List SensorReading) :
    normalizeValues [] = [] ∧
    (∀ r : SensorReading, normalizeValues [r] = [r]) ∧
    ((∀ a ∈ rs, ∀ b ∈ rs, a.getValue = b.getValue) →
      normalizeValues rs = rs ∧
      ∀ first rest, rs = first :: rest →
        (minmaxElement first rest).2.getValue - (minmaxElement first rest).1.getValue = 0) := by
  refine ⟨rfl, ?_, ?_⟩
  · intro r
    exact normalizeValues_const [r] (by
      intro a ha b hb
      rw [List.mem_singleton.mp ha, List.mem_singleton.mp hb])
  · intro h
    refine ⟨normalizeValues_const rs h, ?_⟩
    intro first rest hrs
    subst hrs
    obtain ⟨h1, h2, -⟩ := minmaxElement_spec first rest
    rw [h _ h2 _ h1, sub_self]

theorem normalizeValues_noop_witness :
    (∀ a ∈ exampleConstant, ∀ b ∈ exampleConstant, a.getValue = b.getValue) ∧
    normalizeValues exampleConstant = exampleConstant ∧
    ∀ first rest, exampleConstant = first :: rest →
      (minmaxElement first rest).2.getValue - (minmaxElement first rest).1.getValue = 0 :=
  ⟨by decide, (normalizeValues_noop exampleConstant).2.2 (by decide)⟩

theorem mapFind_eq_none {K V : Type} [LinearOrder K] (k : K) (m : List (K × V))
    (h : ∀ e ∈ m, e.1 ≠ k) : mapFind k m = none := by
  induction m with
  | nil => rfl
  | cons e rest ih =>
    obtain ⟨k2, v⟩ := e
    have hk : k2 ≠ k := h (k2, v) (List.mem_cons_self _ _)
    simp only [mapFind, hk, ↓reduceIte]
    exact ih (fun e he => h e (List.mem_cons_of_mem _ he))

theorem mapFind_mem {K V : Type} [LinearOrder K] (k : K) (v : V) (m : List (K × V))
    (h : mapFind k m = some v) : (k, v) ∈ m := by
  induction m with
  | nil => simp [mapFind] at h
  | cons e rest ih =>
    obtain ⟨k2, v2⟩ := e
    by_cases hk : k2 = k
    · simp only [mapFind, hk, ↓reduceIte, Option.some.injEq] at h
      rw [hk, h]
      exact List.mem_cons_self _ _
    · simp only [mapFind, hk, ↓reduceIte] at h
      exact List.mem_cons_of_mem _ (ih h)

theorem mapFind_of_mem {K V : Type} [LinearOrder K] (k : K) (v : V) (m : List (K × V))
    (hs : (m.map Prod.fst).Sorted (· < ·)) (h : (k, v) ∈ m) : mapFind k m = some v := by
  induction m with
  | nil => simp at h
  | cons e rest ih =>
    obtain ⟨k2, v2⟩ := e
    rw [List.map_cons, List.sorted_cons] at hs
    rcases List.mem_cons.mp h with heq | hmem
    · have h1 : k = k2 := congrArg Prod.fst heq
      have h2 : v = v2 := congrArg Prod.snd heq
      simp [mapFind, h1, h2]
    · have hlt : k2 < k := hs.1 k (List.mem_map_of_mem Prod.fst hmem)
      have hk : k2 ≠ k := ne_of_lt hlt
      simp only [mapFind, hk, ↓reduceIte]
      exact ih hs.2 hmem

theorem mapModify_fst_mem {K V : Type} [LinearOrder K] (k : K) (d : V) (f : V → V)
    (m : List (K × V)) (x : K) :
    x ∈ (mapModify k d f m).map Prod.fst ↔ x = k ∨ x ∈ m.map Prod.fst := by
  induction m with
  | nil => simp [mapModify]
  | cons e rest ih =>
    obtain ⟨k2, v⟩ := e
    unfold mapModify
    by_cases h1 : k < k2
    · simp [h1]
    · by_cases h2 : k2 < k
      · simp only [h1, h2, ↓reduceIte, List.map_cons, List.mem_cons, ih]
        tauto
      · have hk : k2 = k := le_antisymm (not_lt.mp h1) (not_lt.mp h2)
        subst hk
        simp only [lt_irrefl, ↓reduceIte, List.map_cons, List.mem_cons]
        tauto

theorem mapModify_sorted {K V : Type} [LinearOrder K] (k : K) (d : V) (f : V → V)
    (m : List (K × V)) (hs : (m.map Prod.fst).Sorted (· < ·)) :
    ((mapModify k d f m).map Prod.fst).Sorted (· < ·) := by
  induction m with
  | nil => simp [mapModify]
  | cons e rest ih =>
    obtain ⟨k2, v⟩ := e
    rw [List.map_cons, List.sorted_cons] at hs
    unfold mapModify
    by_cases h1 : k < k2
    · simp only [h1, ↓reduceIte, List.map_cons, List.sorted_cons, List.mem_cons]
      refine ⟨?_, hs.1, hs.2⟩
      intro b hb
      rcases hb with hb | hb
      · rw [hb]; exact h1
      · exact lt_trans h1 (hs.1 b hb)
    · by_cases h2 : k2 < k
      · simp only [h1, h2, ↓reduceIte, List.map_cons, List.sorted_cons]
        refine ⟨?_, ih hs.2⟩
        intro b hb
        rcases (mapModify_fst_mem k d f rest b).mp hb with hb | hb
        · rw [hb]; exact h2
        · exact hs.1 b hb
      · simp only [h1, h2, ↓reduceIte, List.map_cons, List.sorted_cons]
        exact hs

/-- Reading the map after `m[k] = f(m[k])`: the entry of `k` holds `f` of the old mapped
value (of the default when there was none), every other key is as before. -/
theorem mapFind_mapModify {K V : Type} [LinearOrder K] (k k2 : K) (d : V) (f : V → V)
    (m : List (K × V)) (hs : (m.map Prod.fst).Sorted (· < ·)) :
    mapFind k2 (mapModify k d f m)
      = if k2 = k then some (f ((mapFind k m).getD d)) else mapFind k2 m := by
  induction m with
  | nil =>
    by_cases hk : k2 = k
    · simp [mapModify, mapFind, hk]
    · have hk2 : ¬ k = k2 := fun h => hk h.symm
      simp [mapModify, mapFind, hk, hk2]
  | cons e rest ih =>
    obtain ⟨k3, v⟩ := e
    rw [List.map_cons, List.sorted_cons] at hs
    unfold mapModify
    by_cases h1 : k < k3
    · have hnone : mapFind k ((k3, v) :: rest) = none := by
        apply mapFind_eq_none
        intro e he
        rcases List.mem_cons.mp he with he | he
        · rw [he]; exact ne_of_gt h1
        · exact ne_of_gt (lt_trans h1 (hs.1 e.1 (List.mem_map_of_mem Prod.fst he)))
      simp only [h1, ↓reduceIte, hnone, Option.getD_none]
      by_cases hk : k2 = k
      · simp [mapFind, hk]
      · have hk2 : ¬ k = k2 := fun h => hk h.symm
        simp only [hk, ↓reduceIte]
        rw [mapFind]
        simp only [hk2, ↓reduceIte]
    · by_cases h2 : k3 < k
      · have h3 : k3 ≠ k := ne_of_lt h2
        simp only [h1, h2, ↓reduceIte]
        rw [mapFind, ih hs.2]
        by_cases hk : k2 = k
        · have h4 : ¬ k3 = k2 := by rw [hk]; exact h3
          simp only [hk, ↓reduceIte, h3, mapFind]
        · simp only [hk, ↓reduceIte, mapFind]
      · have h3 : k3 = k := le_antisymm (not_lt.mp h1) (not_lt.mp h2)
        simp only [h1, h2, ↓reduceIte]
        by_cases hk : k2 = k
        · simp [mapFind, hk, h3]
        · have h4 : ¬ k3 = k2 := by rw [h3]; exact fun h => hk h.symm
          simp only [hk, ↓reduceIte, mapFind, h4]

theorem mapModify_append {K V : Type} [LinearOrder K] (k : K) (d : V) (f : V → V)
    (m : List (K × V)) (h : ∀ e ∈ m, e.1 < k) : mapModify k d f m = m ++ [(k, f d)] := by
  induction m with
  | nil => rfl
  | cons e rest ih =>
    obtain ⟨k2, v⟩ := e
    have h2 : k2 < k := h (k2, v) (List.mem_cons_self _ _)
    have h1 : ¬ k < k2 := not_lt.mpr (le_of_lt h2)
    unfold mapModify
    simp only [h1, h2, ↓reduceIte, List.cons_append]
    rw [ih (fun e he => h e (List.mem_cons_of_mem _ he))]

/-! ## Grouped statistics -/

theorem groupReadings_concat {K : Type} [LinearOrder K] (key : SensorReading → K)
    (l : List SensorReading) (a : SensorReading) :
    groupReadings key (l ++ [a])
      = mapModify (key a) [] (fun group => group ++ [a]) (groupReadings key l) := by
  unfold groupReadings
  rw [List.foldl_concat]

theorem groupReadings_sorted {K : Type} [LinearOrder K] (key : SensorReading → K)
    (rs : List SensorReading) : ((groupReadings key rs).map Prod.fst).Sorted (· < ·) := by
  induction rs using List.reverseRecOn with
  | nil => simp [groupReadings]
  | append_singleton l a ih =>
    rw [groupReadings_concat]
    exact mapModify_sorted _ _ _ _ ih

/-- The group of a key holds the readings with that key, in input order; a key that no
reading has gets no group. -/
theorem groupReadings_find {K : Type} [LinearOrder K] (key : SensorReading → K)
    (rs : List SensorReading) (k : K) :
    mapFind k (groupReadings key rs)
      = if rs.filter (fun r => decide (key r = k)) = [] then none
        else some (rs.filter (fun r => decide (key r = k))) := by
  induction rs using List.reverseRecOn with
  | nil => simp [groupReadings, mapFind]
  | append_singleton l a ih =>
    rw [groupReadings_concat, mapFind_mapModify _ _ _ _ _ (groupReadings_sorted key l),
      List.filter_append]
    by_cases hk : k = key a
    · subst hk
      rw [ih]
      by_cases hl : l.filter (fun r => decide (key r = key a)) = []
      · simp [hl]
      · simp [hl]
    · have hk2 : ¬ key a = k := fun h => hk h.symm
      rw [ih]
      simp [hk, hk2]

theorem mapModify_length_sum {K : Type} [LinearOrder K] (k : K) (a : SensorReading)
    (m : List (K × List SensorReading)) :
    ((mapModify k [] (fun group => group ++ [a]) m).map (fun e => e.2.length)).sum
      = (m.map (fun e => e.2.length)).sum + 1 := by
  induction m with
  | nil => simp [mapModify]
  | cons e rest ih =>
    obtain ⟨k2, v⟩ := e
    unfold mapModify
    by_cases h1 : k < k2
    · simp only [h1, ↓reduceIte, List.map_cons, List.sum_cons, List.nil_append,
        List.length_singleton]
      omega
    · by_cases h2 : k2 < k
      · simp only [h1, h2, ↓reduceIte, List.map_cons, List.sum_cons, ih]
        omega
      · simp only [h1, h2, ↓reduceIte, List.map_cons, List.sum_cons, List.length_append,
          List.length_singleton]
        omega

/-- Every reading is in exactly one group. -/
theorem groupReadings_length_sum {K : Type} [LinearOrder K] (key : SensorReading → K)
    (rs : List SensorReading) :
    ((groupReadings key rs).map (fun e => e.2.length)).sum = rs.length := by
  induction rs using List.reverseRecOn with
  | nil => simp [groupReadings]
  | append_singleton l a ih =>
    rw [groupReadings_concat, mapModify_length_sum, ih, List.length_append,
      List.length_singleton]

theorem statisticsOfGroups_loop {K : Type} [LinearOrder K]
    (grouped : List (K × List SensorReading)) (statsMap : List (K × SensorStatistics))
    (hs : (statsMap.map Prod.fst ++ grouped.map Prod.fst).Sorted (· < ·)) :
    grouped.foldl (fun statsMap pair =>
      mapModify pair.1 SensorStatistics.default (fun _ => calculateStatistics pair.2) statsMap)
      statsMap
      = statsMap ++ grouped.map (fun e => (e.1, calculateStatistics e.2)) := by
  induction grouped generalizing statsMap with
  | nil => simp
  | cons e rest ih =>
    have hlt : ∀ x ∈ statsMap, x.1 < e.1 := by
      intro x hx
      have hp := List.pairwise_append.mp hs
      exact hp.2.2 x.1 (List.mem_map_of_mem Prod.fst hx) e.1 (by simp)
    rw [List.foldl_cons, mapModify_append _ _ _ _ hlt, ih]
    · simp
    · simpa using hs

/-- The second loop visits the groups in ascending key order, so it builds the map with the
same keys and the statistics of every group. -/
theorem statisticsOfGroups_eq_map {K : Type} [LinearOrder K]
    (grouped : List (K × List SensorReading))
    (hs : (grouped.map Prod.fst).Sorted (· < ·)) :
    statisticsOfGroups grouped = grouped.map (fun e => (e.1, calculateStatistics e.2)) := by
  unfold statisticsOfGroups
  rw [statisticsOfGroups_loop grouped [] (by simpa using hs)]
  rfl

theorem mapFind_map_statistics {K : Type} [LinearOrder K] (k : K)
    (grouped : List (K × List SensorReading)) :
    mapFind k (grouped.map (fun e => (e.1, calculateStatistics e.2)))
      = (mapFind k grouped).map calculateStatistics := by
  induction grouped with
  | nil => rfl
  | cons e rest ih =>
    obtain ⟨k2, v⟩ := e
    by_cases hk : k2 = k
    · simp [mapFind, hk]
    · simp only [List.map_cons, mapFind, hk, ↓reduceIte]
      exact ih

theorem calculateStatisticsBy_eq_map {K : Type} [LinearOrder K] (key : SensorReading → K)
    (rs : List SensorReading) :
    calculateStatisticsBy key rs
      = (groupReadings key rs).map (fun e => (e.1, calculateStatistics e.2)) :=
  statisticsOfGroups_eq_map _ (groupReadings_sorted key rs)

/-- The keys of the returned map are strictly ascending: one entry per key. -/
theorem calculateStatisticsBy_sorted {K : Type} [LinearOrder K] (key : SensorReading → K)
    (rs : List SensorReading) :
    ((calculateStatisticsBy key rs).map Prod.fst).Sorted (· < ·) := by
  rw [calculateStatisticsBy_eq_map, List.map_map]
  exact groupReadings_sorted key rs

/-- The entry of a key is the statistics of the readings with that key; a key that no reading
has gets no entry. -/
theorem calculateStatisticsBy_find {K : Type} [LinearOrder K] (key : SensorReading → K)
    (rs : List SensorReading) (k : K) :
    mapFind k (calculateStatisticsBy key rs)
      = if rs.filter (fun r => decide (key r = k)) = [] then none
        else some (calculateStatistics (rs.filter (fun r => decide (key r = k)))) := by
  rw [calculateStatisticsBy_eq_map, mapFind_map_statistics, groupReadings_find]
  by_cases h : rs.filter (fun r => decide (key r = k)) = []
  · simp [h]
  · simp [h]

theorem calculateStatisticsBy_count_sum {K : Type} [LinearOrder K] (key : SensorReading → K)
    (rs : List SensorReading) :
    ((calculateStatisticsBy key rs).map (fun e => e.2.count)).sum = rs.length := by
  rw [calculateStatisticsBy_eq_map, List.map_map]
  have h : ((fun e : K × SensorStatistics => e.2.count) ∘
      fun e : K × List SensorReading => (e.1, calculateStatistics e.2))
      = fun e => e.2.length := by
    funext e
    exact calculateStatistics_count e.2
  rw [h]
  exact groupReadings_length_sum key rs

theorem calculateStatisticsByType_eq (rs : List SensorReading) :
    calculateStatisticsByType rs = calculateStatisticsBy SensorReading.getType rs := rfl

theorem calculateStatisticsBySensorId_eq (rs : List SensorReading) :
    calculateStatisticsBySensorId rs = calculateStatisticsBy SensorReading.getSensorId rs := rfl

/-- The entry of a key, for either grouping: present with the statistics of the readings of
that key exactly when some reading has the key. -/
theorem calculateStatisticsBy_entry {K : Type} [LinearOrder K] (key : SensorReading → K)
    (rs : List SensorReading) (k : K) :
    ((∃ r ∈ rs, key r = k) →
      mapFind k (calculateStatisticsBy key rs)
        = some (calculateStatistics (rs.filter (fun r => decide (key r = k)))) ∧
      (k, calculateStatistics (rs.filter (fun r => decide (key r = k))))
        ∈ calculateStatisticsBy key rs ∧
      (∀ e ∈ calculateStatisticsBy key rs, e.1 = k →
        e.2 = calculateStatistics (rs.filter (fun r => decide (key r = k)))) ∧
      1 ≤ (calculateStatistics (rs.filter (fun r => decide (key r = k)))).count) ∧
    ((∀ r ∈ rs, key r ≠ k) →
      mapFind k (calculateStatisticsBy key rs) = none ∧
      ∀ e ∈ calculateStatisticsBy key rs, e.1 ≠ k) := by
  have hsorted := calculateStatisticsBy_sorted key rs
  have hfind := calculateStatisticsBy_find key rs k
  constructor
  · intro hex
    obtain ⟨r, hr, hk⟩ := hex
    have hmem : r ∈ rs.filter (fun r => decide (key r = k)) :=
      List.mem_filter.mpr ⟨hr, by simpa using hk⟩
    have hne : rs.filter (fun r => decide (key r = k)) ≠ [] := List.ne_nil_of_mem hmem
    simp only [hne, ↓reduceIte] at hfind
    refine ⟨hfind, mapFind_mem _ _ _ hfind, ?_, ?_⟩
    · intro e he hek
      have h2 := mapFind_of_mem e.1 e.2 _ hsorted he
      rw [hek, hfind] at h2
      exact (Option.some.inj h2).symm
    · rw [calculateStatistics_count]
      exact List.length_pos.mpr hne
  · intro hall
    have hnil : rs.filter (fun r => decide (key r = k)) = [] := by
      rw [List.filter_eq_nil_iff]
      intro r hr
      simpa using hall r hr
    simp only [hnil, ↓reduceIte] at hfind
    refine ⟨hfind, ?_⟩
    intro e he hek
    have h2 := mapFind_of_mem e.1 e.2 _ hsorted he
    rw [hek, hfind] at h2
    exact Option.noConfusion h2

/-- C18: the sum of the `count` fields over all entries returned by
`calculateStatisticsByType` equals the number of input readings, and the same holds for
`calculateStatisticsBySensorId`. -/
theorem grouped_count_sum (rs : List SensorReading) :
    ((calculateStatisticsByType rs).map (fun e => e.2.count)).sum = rs.length ∧
    ((calculateStatisticsBySensorId rs).map (fun e => e.2.count)).sum = rs.length := by
  rw [calculateStatisticsByType_eq, calculateStatisticsBySensorId_eq]
  exact ⟨calculateStatisticsBy_count_sum _ rs, calculateStatisticsBy_count_sum _ rs⟩

/-- C19: if some reading has category `c`, the map returned by `calculateStatisticsByType`
has an entry for `c`, the only one, equal to `calculateStatistics (filterByType rs c)`, with
count at least 1; if no reading has category `c` the map has no entry for `c`. -/
theorem calculateStatisticsByType_entry (rs : List SensorReading) (c : SensorType) :
    ((∃ r ∈ rs, r.getType = c) →
      mapFind c (calculateStatisticsByType rs)
        = some (calculateStatistics (filterByType rs c)) ∧
      (c, calculateStatistics (filterByType rs c)) ∈ calculateStatisticsByType rs ∧
      (∀ e ∈ calculateStatisticsByType rs, e.1 = c →
        e.2 = calculateStatistics (filterByType rs c)) ∧
      1 ≤ (calculateStatistics (filterByType rs c)).count) ∧
    ((∀ r ∈ rs, r.getType ≠ c) →
      mapFind c (calculateStatisticsByType rs) = none ∧
      ∀ e ∈ calculateStatisticsByType rs, e.1 ≠ c) := by
  have hf : filterByType rs c = rs.filter (fun r => decide (r.getType = c)) :=
    copyIf_eq_filter _ rs
  rw [calculateStatisticsByType_eq, hf]
  convert calculateStatisticsBy_entry SensorReading.getType rs c

theorem calculateStatisticsByType_entry_witness :
    ((calculateStatisticsByType exampleGroups).map fun e => (e.1, e.2.count))
      = [(SensorType.TEMPERATURE, 2), (SensorType.PRESSURE, 2)] ∧
    (mapFind SensorType.TEMPERATURE (calculateStatisticsByType exampleGroups)
        = some (calculateStatistics (filterByType exampleGroups SensorType.TEMPERATURE)) ∧
      (SensorType.TEMPERATURE,
          calculateStatistics (filterByType exampleGroups SensorType.TEMPERATURE))
        ∈ calculateStatisticsByType exampleGroups ∧
      (∀ e ∈ calculateStatisticsByType exampleGroups, e.1 = SensorType.TEMPERATURE →
        e.2 = calculateStatistics (filterByType exampleGroups SensorType.TEMPERATURE)) ∧
      1 ≤ (calculateStatistics (filterByType exampleGroups SensorType.TEMPERATURE)).count) ∧
    (mapFind SensorType.DEPTH (calculateStatisticsByType exampleGroups) = none ∧
      ∀ e ∈ calculateStatisticsByType exampleGroups, e.1 ≠ SensorType.DEPTH) :=
  ⟨by decide,
    (calculateStatisticsByType_entry exampleGroups SensorType.TEMPERATURE).1
      ⟨exampleGroups.get ⟨0, by decide⟩, by decide, by decide⟩,
    (calculateStatisticsByType_entry exampleGroups SensorType.DEPTH).2 (by decide)⟩

/-- C20: if some reading has sensorId exactly `id`, the map returned by
`calculateStatisticsBySensorId` has an entry for `id`, the only one, equal to
`calculateStatistics (filterBySensorId rs id)`; if no reading has that sensorId the map has
no entry for `id`. The empty string is a key like any other. -/
theorem calculateStatisticsBySensorId_entry (rs : List SensorReading) (id : String) :
    ((∃ r ∈ rs, r.getSensorId = id) →
      mapFind id (calculateStatisticsBySensorId rs)
        = some (calculateStatistics (filterBySensorId rs id)) ∧
      (id, calculateStatistics (filterBySensorId rs id)) ∈ calculateStatisticsBySensorId rs ∧
      (∀ e ∈ calculateStatisticsBySensorId rs, e.1 = id →
        e.2 = calculateStatistics (filterBySensorId rs id)) ∧
      1 ≤ (calculateStatistics (filterBySensorId rs id)).count) ∧
    ((∀ r ∈ rs, r.getSensorId ≠ id) →
      mapFind id (calculateStatisticsBySensorId rs) = none ∧
      ∀ e ∈ calculateStatisticsBySensorId rs, e.1 ≠ id) := by
  have hf : filterBySensorId rs id = rs.filter (fun r => decide (r.getSensorId = id)) :=
    copyIf_eq_filter _ rs
  rw [calculateStatisticsBySensorId_eq, hf]
  convert calculateStatisticsBy_entry SensorReading.getSensorId rs id

theorem calculateStatisticsBySensorId_entry_witness :
    ((calculateStatisticsBySensorId exampleProcess).map fun e => (e.1, e.2.count))
      = [("", 1), ("S1", 1), ("S3", 1), ("S4", 1)] ∧
    (mapFind "" (calculateStatisticsBySensorId exampleProcess)
        = some (calculateStatistics (filterBySensorId exampleProcess "")) ∧
      ("", calculateStatistics (filterBySensorId exampleProcess ""))
        ∈ calculateStatisticsBySensorId exampleProcess ∧
      (∀ e ∈ calculateStatisticsBySensorId exampleProcess, e.1 = "" →
        e.2 = calculateStatistics (filterBySensorId exampleProcess "")) ∧
      1 ≤ (calculateStatistics (filterBySensorId exampleProcess "")).count) ∧
    (mapFind "S2" (calculateStatisticsBySensorId exampleProcess) = none ∧
      ∀ e ∈ calculateStatisticsBySensorId exampleProcess, e.1 ≠ "S2") :=
  ⟨by decide!,
    (calculateStatisticsBySensorId_entry exampleProcess "").1
      ⟨exampleProcess.get ⟨1, by decide⟩, by decide, by decide⟩,
    (calculateStatisticsBySensorId_entry exampleProcess "S2").2 (by decide)⟩

/-! ## Category names and validity -/

/-- C21: for each of the six categories `typeToString` gives exactly its upper-case name,
never "UNKNOWN", `stringToType` maps that name back to the category, and so `typeToString`
is injective. -/
theorem typeToString_roundtrip :
    typeToString SensorType.TEMPERATURE = "TEMPERATURE" ∧
    typeToString SensorType.PRESSURE = "PRESSURE" ∧
    typeToString SensorType.DEPTH = "DEPTH" ∧
    typeToString SensorType.SONAR = "SONAR" ∧
    typeToString SensorType.ACCELEROMETER = "ACCELEROMETER" ∧
    typeToString SensorType.GYROSCOPE = "GYROSCOPE" ∧
    (∀ t : SensorType, typeToString t ≠ "UNKNOWN") ∧
    (∀ t : SensorType, stringToType (typeToString t) = t) ∧
    Function.Injective typeToString := by
  have hback : ∀ t : SensorType, stringToType (typeToString t) = t := by
    intro t
    cases t <;> decide!
  refine ⟨by decide, by decide, by decide, by decide, by decide, by decide, ?_, hback, ?_⟩
  · intro t
    cases t <;> decide
  · intro a b hab
    rw [← hback a, ← hback b, hab]

/-- Any string that is none of the six names is not a key of `stringMap`. -/
theorem stringToType_of_not_name (s : String)
    (h : s ∉ ["TEMPERATURE", "PRESSURE", "DEPTH", "SONAR", "ACCELEROMETER", "GYROSCOPE"]) :
    stringToType s = SensorType.TEMPERATURE := by
  simp only [List.mem_cons, List.mem_singleton, List.not_mem_nil, or_false, not_or] at h
  obtain ⟨h1, h2, h3, h4, h5, h6⟩ := h
  have e1 : ¬ "TEMPERATURE" = s := fun e => h1 e.symm
  have e2 : ¬ "PRESSURE" = s := fun e => h2 e.symm
  have e3 : ¬ "DEPTH" = s := fun e => h3 e.symm
  have e4 : ¬ "SONAR" = s := fun e => h4 e.symm
  have e5 : ¬ "ACCELEROMETER" = s := fun e => h5 e.symm
  have e6 : ¬ "GYROSCOPE" = s := fun e => h6 e.symm
  simp only [stringToType, stringMap, mapFind, e1, e2, e3, e4, e5, e6, ↓reduceIte]

/-- C22: for every string that is not exactly one of the six names `stringToType` returns
`TEMPERATURE` (so do "bogus", "pressure" and the empty string), and `stringToType s` differs
from `TEMPERATURE` only when `s` is one of the other five exact names. -/
theorem stringToType_fallback (s : String) :
    (s ∉ ["TEMPERATURE", "PRESSURE", "DEPTH", "SONAR", "ACCELEROMETER", "GYROSCOPE"] →
      stringToType s = SensorType.TEMPERATURE) ∧
    (stringToType s ≠ SensorType.TEMPERATURE →
      s ∈ ["PRESSURE", "DEPTH", "SONAR", "ACCELEROMETER", "GYROSCOPE"]) ∧
    stringToType "bogus" = SensorType.TEMPERATURE ∧
    stringToType "pressure" = SensorType.TEMPERATURE ∧
    stringToType "" = SensorType.TEMPERATURE := by
  refine ⟨stringToType_of_not_name s, ?_, by decide!, by decide!, by decide!⟩
  intro hne
  by_contra hmem
  apply hne
  by_cases ht : s = "TEMPERATURE"
  · rw [ht]
    decide!
  · apply stringToType_of_not_name
    intro h6
    rcases List.mem_cons.mp h6 with h | h
    · exact ht h
    · exact hmem h

theorem stringToType_fallback_witness :
    stringToType "Pressure" = SensorType.TEMPERATURE ∧
    (stringToType "SONAR" ≠ SensorType.TEMPERATURE →
      "SONAR" ∈ ["PRESSURE", "DEPTH", "SONAR", "ACCELEROMETER", "GYROSCOPE"]) :=
  ⟨(stringToType_fallback "Pressure").1 (by decide), (stringToType_fallback "SONAR").2.1⟩

/-- C23: `isValid()` is true exactly when the sensorId is a non-empty string and the
timestamp is strictly greater than 0; the value and the category play no role, and the
default-constructed reading is invalid. -/
theorem isValid_iff (r : SensorReading) :
    (r.isValid = true ↔ r.sensorId_ ≠ "" ∧ 0 < r.timestamp_) ∧
    (r.timestamp_ ≤ 0 → r.isValid = false) ∧
    (∀ (v : ℚ) (c : SensorType),
      ({ r with value_ := v, type_ := c } : SensorReading).isValid = r.isValid) ∧
    SensorReading.default.isValid = false := by
  have hiff : r.isValid = true ↔ r.sensorId_ ≠ "" ∧ 0 < r.timestamp_ := by
    unfold SensorReading.isValid
    rw [Bool.and_eq_true, Bool.not_eq_true', decide_eq_true_eq, ← Bool.not_eq_true,
      String.isEmpty_iff]
  refine ⟨hiff, ?_, ?_, by decide⟩
  · intro hle
    rw [← Bool.not_eq_true, hiff]
    intro h
    omega
  · intro v c
    rfl

theorem isValid_iff_witness :
    (mkReading 7).isValid = true ∧
    ({ mkReading 7 with timestamp_ := -5 } : SensorReading).isValid = false :=
  ⟨by decide, (isValid_iff { mkReading 7 with timestamp_ := -5 }).2.1 (by decide)⟩

/-! ## Reads and order of the quartiles -/

theorem getElem?_isSome_iff (s : List ℚ) (i : Nat) : s[i]?.isSome = true ↔ i < s.length := by
  constructor
  · intro h
    by_contra hi
    rw [List.getElem?_eq_none (not_lt.mp hi)] at h
    exact Bool.noConfusion h
  · intro hi
    rw [List.getElem?_eq_getElem hi]
    rfl

theorem bind_pair_isSome_iff (a b : Option ℚ) (f : ℚ → ℚ → ℚ) :
    (a.bind fun x => b.bind fun y => some (f x y)).isSome = true
      ↔ a.isSome = true ∧ b.isSome = true := by
  cases a <;> cases b <;> simp

theorem bind_tuple_isSome_iff (a b : Option ℚ) :
    (a.bind fun x => b.bind fun y => some (x, y)).isSome = true
      ↔ a.isSome = true ∧ b.isSome = true := by
  cases a <;> cases b <;> simp

/-- The call `calculateQuartiles` returns exactly when every index of `quartileReads` is in
range: these are the reads of the call. -/
theorem calculateQuartiles_isSome_iff (s : List ℚ) :
    (calculateQuartiles s).isSome = true ↔ ∀ i ∈ quartileReads s.length, i < s.length := by
  unfold calculateQuartiles quartileReads
  simp only [Option.bind_eq_bind, Option.pure_def]
  rw [bind_tuple_isSome_iff]
  by_cases c1 : s.length % 4 = 0 ∨ s.length % 4 = 1
  · by_cases c3 : s.length % 4 = 0 ∨ s.length % 4 = 3
    · simp only [c1, c3, ↓reduceIte, getElem?_isSome_iff, List.singleton_append,
        List.mem_cons, List.mem_singleton, List.not_mem_nil, or_false, forall_eq_or_imp,
        forall_eq]
    · simp only [c1, c3, ↓reduceIte, getElem?_isSome_iff, bind_pair_isSome_iff,
        List.singleton_append, List.mem_cons, List.mem_singleton, List.not_mem_nil, or_false,
        forall_eq_or_imp, forall_eq]
  · by_cases c3 : s.length % 4 = 0 ∨ s.length % 4 = 3
    · simp only [c1, c3, ↓reduceIte, getElem?_isSome_iff, bind_pair_isSome_iff,
        List.cons_append, List.nil_append, List.mem_cons, List.mem_singleton,
        List.not_mem_nil, or_false, forall_eq_or_imp, forall_eq, and_assoc]
    · simp only [c1, c3, ↓reduceIte, getElem?_isSome_iff, bind_pair_isSome_iff,
        List.cons_append, List.nil_append, List.mem_cons, List.mem_singleton,
        List.not_mem_nil, or_false, forall_eq_or_imp, forall_eq, and_assoc]

/-- On at least four values every index read by `calculateQuartiles` is in range. -/
theorem quartileReads_lt (n : Nat) (h : 4 ≤ n) : ∀ i ∈ quartileReads n, i < n := by
  intro i hi
  unfold quartileReads at hi
  rcases List.mem_append.mp hi with h1 | h3
  · split at h1
    · rw [List.mem_singleton] at h1
      omega
    · simp only [List.mem_cons, List.mem_singleton, List.not_mem_nil, or_false] at h1
      rcases h1 with h1 | h1 <;> omega
  · split at h3
    · rw [List.mem_singleton] at h3
      omega
    · rename_i hc
      simp only [List.mem_cons, List.mem_singleton, List.not_mem_nil, or_false] at h3
      have hmod : n % 4 = 1 ∨ n % 4 = 2 := by omega
      rcases h3 with h3 | h3
      · omega
      · rcases hmod with hm | hm <;> omega

/-- C24: on at least four values every index that `calculateQuartiles` reads is below the
size, so the call returns; `removeOutliers` calls it only on at least four values, so
`removeOutliers` and `process` return for every input (no out-of-range read is reached). -/
theorem quartile_reads_in_range (s : List ℚ) (rs : List SensorReading) :
    (4 ≤ s.length →
      (∀ i ∈ quartileReads s.length, i < s.length) ∧ (calculateQuartiles s).isSome = true) ∧
    (s.length % 4 = 0 → quartileReads s.length = [s.length / 4, 3 * s.length / 4]) ∧
    (s.length % 4 = 1 →
      quartileReads s.length = [s.length / 4, 3 * s.length / 4, 3 * s.length / 4 + 1]) ∧
    (s.length % 4 = 2 → quartileReads s.length
      = [s.length / 4, s.length / 4 + 1, 3 * s.length / 4, 3 * s.length / 4 + 1]) ∧
    (s.length % 4 = 3 →
      quartileReads s.length = [s.length / 4, s.length / 4 + 1, 3 * s.length / 4]) ∧
    (removeOutliers rs).isSome = true ∧ (process rs).isSome = true := by
  refine ⟨?_, ?_, ?_, ?_, ?_, ?_, ?_⟩
  · intro h
    exact ⟨quartileReads_lt _ h, (calculateQuartiles_isSome_iff s).mpr (quartileReads_lt _ h)⟩
  · intro h
    simp [quartileReads, h]
  · intro h
    simp [quartileReads, h]
  · intro h
    simp [quartileReads, h]
  · intro h
    simp [quartileReads, h]
  · obtain ⟨p, hp⟩ := removeOutliers_total rs
    rw [hp]
    rfl
  · obtain ⟨p, hp⟩ := removeOutliers_total (rs.filter fun r => r.isValid)
    rw [process_eq, hp]
    rfl

theorem quartile_reads_in_range_witness :
    (∀ i ∈ quartileReads 5, i < 5) ∧
    (calculateQuartiles [1, 2, 3, 4, 5]).isSome = true ∧
    quartileReads 5 = [1, 3, 4] ∧
    (calculateQuartiles [1, 2]).isSome = false :=
  ⟨((quartile_reads_in_range [1, 2, 3, 4, 5] []).1 (by decide)).1,
    ((quartile_reads_in_range [1, 2, 3, 4, 5] []).1 (by decide)).2,
    (quartile_reads_in_range [1, 2, 3, 4, 5] []).2.2.1 (by decide), by decide⟩

theorem removeOutliers_first_pass (rs : List SensorReading)
    (hv : rs.map SensorReading.getValue = [0, 0, 0, 0, 0, 0, 1, 10]) :
    removeOutliers rs = some (rs.take 7) := by
  have hlen : rs.length = 8 := by
    have := congrArg List.length hv
    simpa using this
  have hq : calculateQuartiles (sortAscending (extractValues rs)) = some (0, 1) := by
    unfold extractValues
    rw [hv]
    decide
  rw [removeOutliers_of_quartiles rs (by omega) 0 1 hq]
  congr 1
  rcases rs with _ | ⟨r0, _ | ⟨r1, _ | ⟨r2, _ | ⟨r3, _ | ⟨r4, _ | ⟨r5, _ | ⟨r6, _ | ⟨r7,
    _ | ⟨r8, t⟩⟩⟩⟩⟩⟩⟩⟩⟩ <;>
    simp only [List.length_nil, List.length_cons] at hlen <;> try omega
  simp only [List.map_cons, List.map_nil, List.cons.injEq, and_true] at hv
  obtain ⟨e0, e1, e2, e3, e4, e5, e6, e7⟩ := hv
  simp only [List.filter_cons, List.filter_nil, e0, e1, e2, e3, e4, e5, e6, e7]
  norm_num

theorem removeOutliers_second_pass (rs : List SensorReading)
    (hv : rs.map SensorReading.getValue = [0, 0, 0, 0, 0, 0, 1]) :
    removeOutliers rs = some (rs.take 6) := by
  have hlen : rs.length = 7 := by
    have := congrArg List.length hv
    simpa using this
  have hq : calculateQuartiles (sortAscending (extractValues rs)) = some (0, 0) := by
    unfold extractValues
    rw [hv]
    decide!
  rw [removeOutliers_of_quartiles rs (by omega) 0 0 hq]
  congr 1
  rcases rs with _ | ⟨r0, _ | ⟨r1, _ | ⟨r2, _ | ⟨r3, _ | ⟨r4, _ | ⟨r5, _ | ⟨r6,
    _ | ⟨r7, t⟩⟩⟩⟩⟩⟩⟩⟩ <;>
    simp only [List.length_nil, List.length_cons] at hlen <;> try omega
  simp only [List.map_cons, List.map_nil, List.cons.injEq, and_true] at hv
  obtain ⟨e0, e1, e2, e3, e4, e5, e6⟩ := hv
  simp only [List.filter_cons, List.filter_nil, e0, e1, e2, e3, e4, e5, e6]
  norm_num

/-- C28: `removeOutliers` is not idempotent. For readings with the values 0, 0, 0, 0, 0, 0,
1, 10 it returns the first seven (values 0, 0, 0, 0, 0, 0, 1), and applied to that result it
returns the first six (values 0, 0, 0, 0, 0, 0); so a second `process` can remove readings
that the first one kept. -/
theorem removeOutliers_not_idempotent :
    (∀ rs : List SensorReading, rs.map SensorReading.getValue = [0, 0, 0, 0, 0, 0, 1, 10] →
      removeOutliers rs = some (rs.take 7) ∧
      (rs.take 7).map SensorReading.getValue = [0, 0, 0, 0, 0, 0, 1] ∧
      removeOutliers (rs.take 7) = some (rs.take 6) ∧
      (rs.take 6).map SensorReading.getValue = [0, 0, 0, 0, 0, 0] ∧
      rs.take 6 ≠ rs.take 7) ∧
    process exampleTwice = some (exampleTwice.take 7) ∧
    process (exampleTwice.take 7) = some (exampleTwice.take 6) ∧
    (process exampleTwice).bind process ≠ process exampleTwice := by
  refine ⟨?_, by decide!, by decide!, by decide!⟩
  intro rs hv
  have h7 : (rs.take 7).map SensorReading.getValue = [0, 0, 0, 0, 0, 0, 1] := by
    rw [List.map_take, hv]
    rfl
  have h6 : (rs.take 6).map SensorReading.getValue = [0, 0, 0, 0, 0, 0] := by
    rw [List.map_take, hv]
    rfl
  have hsecond := removeOutliers_second_pass (rs.take 7) h7
  rw [List.take_take] at hsecond
  refine ⟨removeOutliers_first_pass rs hv, h7, hsecond, h6, ?_⟩
  intro heq
  have := congrArg (fun l => (l.map SensorReading.getValue).length) heq
  simp only [h6, h7] at this
  exact absurd this (by decide)

theorem removeOutliers_not_idempotent_witness :
    removeOutliers exampleTwice = some (exampleTwice.take 7) ∧
    (exampleTwice.take 7).map SensorReading.getValue = [0, 0, 0, 0, 0, 0, 1] ∧
    removeOutliers (exampleTwice.take 7) = some (exampleTwice.take 6) ∧
    (exampleTwice.take 6).map SensorReading.getValue = [0, 0, 0, 0, 0, 0] ∧
    exampleTwice.take 6 ≠ exampleTwice.take 7 :=
  removeOutliers_not_idempotent.1 exampleTwice (by decide)

theorem statistics_ext (a b : SensorStatistics) (h1 : a.min = b.min) (h2 : a.max = b.max)
    (h3 : a.mean = b.mean) (h4 : a.median = b.median) (h5 : a.count = b.count) : a = b := by
  cases a
  cases b
  simp only [SensorStatistics.mk.injEq]
  exact ⟨h1, h2, h3, h4, h5⟩

/-- C29: `calculateStatistics` depends only on the multiset of the reading values: two
collections whose lists of values are permutations of each other get the same `min`, `max`,
`mean`, `median` and `count`, whatever their sensorIds, categories and timestamps. -/
theorem calculateStatistics_perm (rs1 rs2 : List SensorReading)
    (h : (rs1.map SensorReading.getValue).Perm (rs2.map SensorReading.getValue)) :
    calculateStatistics rs1 = calculateStatistics rs2 := by
  have hlen : rs1.length = rs2.length := by
    have := h.length_eq
    simpa using this
  have hsort : sortAscending (extractValues rs1) = sortAscending (extractValues rs2) :=
    sortAscending_unique _ _ (sortAscending_sorted _) ((sortAscending_perm _).trans h)
  by_cases hnil : rs1 = []
  · have hnil2 : rs2 = [] := by
      apply List.length_eq_zero.mp
      rw [← hlen, hnil]
      rfl
    rw [hnil, hnil2]
  · have hnil2 : rs2 ≠ [] := by
      intro h2
      apply hnil
      apply List.length_eq_zero.mp
      rw [hlen, h2]
      rfl
    apply statistics_ext
    · have e1 := calculateStatistics_min_eq rs1 hnil
      have e2 := calculateStatistics_min_eq rs2 hnil2
      rw [hsort, e2] at e1
      exact (Option.some.inj e1).symm
    · have e1 := calculateStatistics_max_eq rs1 hnil
      have e2 := calculateStatistics_max_eq rs2 hnil2
      rw [hsort, hlen, e2] at e1
      exact (Option.some.inj e1).symm
    · rw [calculateStatistics_mean_eq rs1 hnil, calculateStatistics_mean_eq rs2 hnil2, hlen]
      unfold extractValues
      rw [h.sum_eq]
    · rw [calculateStatistics_median_eq rs1 hnil, calculateStatistics_median_eq rs2 hnil2,
        hsort]
    · rw [calculateStatistics_count, calculateStatistics_count, hlen]

theorem calculateStatistics_perm_witness :
    (exampleShuffled.map SensorReading.getValue).Perm
      (exampleRange.map SensorReading.getValue) ∧
    exampleShuffled.map SensorReading.getSensorId
      ≠ exampleRange.map SensorReading.getSensorId ∧
    calculateStatistics exampleShuffled = calculateStatistics exampleRange :=
  ⟨by decide, by decide, calculateStatistics_perm exampleShuffled exampleRange (by decide)⟩

/-- A non-empty collection has a least and a greatest value. -/
theorem exists_least_greatest (rs : List SensorReading) (h : rs ≠ []) :
    ∃ m M, (m ∈ extractValues rs ∧ ∀ v ∈ extractValues rs, m ≤ v) ∧
      (M ∈ extractValues rs ∧ ∀ v ∈ extractValues rs, v ≤ M) := by
  cases rs with
  | nil => exact absurd rfl h
  | cons first rest =>
    obtain ⟨h1, h2, h3⟩ := minmaxElement_spec first rest
    refine ⟨(minmaxElement first rest).1.getValue, (minmaxElement first rest).2.getValue,
      ⟨List.mem_map_of_mem _ h1, ?_⟩, ⟨List.mem_map_of_mem _ h2, ?_⟩⟩
    · intro v hv
      obtain ⟨r, hr, rfl⟩ := List.mem_map.mp hv
      exact (h3 r hr).1
    · intro v hv
      obtain ⟨r, hr, rfl⟩ := List.mem_map.mp hv
      exact (h3 r hr).2

theorem setValue_getValue (r : SensorReading) (v : ℚ) : (r.setValue v).getValue = v := rfl

theorem setValue_self (r : SensorReading) : r.setValue r.getValue = r := by
  cases r
  rfl

/-- C30: over exact arithmetic `normalizeValues` is idempotent: applying it twice yields the
same collection as applying it once. -/
theorem normalizeValues_idempotent (rs : List SensorReading) :
    normalizeValues (normalizeValues rs) = normalizeValues rs := by
  by_cases hc : ∀ a ∈ rs, ∀ b ∈ rs, a.getValue = b.getValue
  · rw [normalizeValues_const rs hc, normalizeValues_const rs hc]
  · have hne : ∃ a ∈ rs, ∃ b ∈ rs, a.getValue ≠ b.getValue := by
      by_contra hcon
      apply hc
      intro a ha b hb
      by_contra hab
      exact hcon ⟨a, ha, b, hb, hab⟩
    have hnil : rs ≠ [] := by
      obtain ⟨a, ha, -⟩ := hne
      exact List.ne_nil_of_mem ha
    obtain ⟨m, M, hm, hM⟩ := exists_least_greatest rs hnil
    have hlt := least_lt_greatest rs m M hne hm hM
    have hpos : 0 < M - m := by linarith
    rw [normalizeValues_map rs m M hne hm hM]
    have h0 : (0 : ℚ) ∈ extractValues
          (rs.map fun r => r.setValue ((r.getValue - m) / (M - m))) ∧
        ∀ v ∈ extractValues (rs.map fun r => r.setValue ((r.getValue - m) / (M - m))),
          0 ≤ v := by
      constructor
      · obtain ⟨r, hr, hv⟩ := List.mem_map.mp hm.1
        refine List.mem_map.mpr ⟨r.setValue ((r.getValue - m) / (M - m)),
          List.mem_map_of_mem _ hr, ?_⟩
        rw [setValue_getValue, hv, sub_self, zero_div]
      · intro v hv
        obtain ⟨r2, hr2, rfl⟩ := List.mem_map.mp hv
        obtain ⟨r, hr, rfl⟩ := List.mem_map.mp hr2
        rw [setValue_getValue]
        have := hm.2 _ (List.mem_map_of_mem SensorReading.getValue hr)
        exact div_nonneg (by linarith) (le_of_lt hpos)
    have h1 : (1 : ℚ) ∈ extractValues
          (rs.map fun r => r.setValue ((r.getValue - m) / (M - m))) ∧
        ∀ v ∈ extractValues (rs.map fun r => r.setValue ((r.getValue - m) / (M - m))),
          v ≤ 1 := by
      constructor
      · obtain ⟨r, hr, hv⟩ := List.mem_map.mp hM.1
        refine List.mem_map.mpr ⟨r.setValue ((r.getValue - m) / (M - m)),
          List.mem_map_of_mem _ hr, ?_⟩
        rw [setValue_getValue, hv, div_self (ne_of_gt hpos)]
      · intro v hv
        obtain ⟨r2, hr2, rfl⟩ := List.mem_map.mp hv
        obtain ⟨r, hr, rfl⟩ := List.mem_map.mp hr2
        rw [setValue_getValue, div_le_one hpos]
        have := hM.2 _ (List.mem_map_of_mem SensorReading.getValue hr)
        linarith
    rw [normalizeValues_eq _ 0 1 h0 h1]
    simp only [sub_zero, div_one, setValue_self, List.map_id', one_ne_zero, ↓reduceIte]

/-- In every case `normalizeValues` rewrites each value `v` to `(v - m) / c` for one shift
`m` and one positive scale `c` (shift 0 and scale 1 when the collection is left unchanged). -/
theorem normalizeValues_affine (rs : List SensorReading) :
    ∃ m c : ℚ, 0 < c ∧
      normalizeValues rs = rs.map fun r => r.setValue ((r.getValue - m) / c) := by
  by_cases hc : ∀ a ∈ rs, ∀ b ∈ rs, a.getValue = b.getValue
  · refine ⟨0, 1, one_pos, ?_⟩
    rw [normalizeValues_const rs hc]
    simp only [sub_zero, div_one, setValue_self, List.map_id']
  · have hne : ∃ a ∈ rs, ∃ b ∈ rs, a.getValue ≠ b.getValue := by
      by_contra hcon
      apply hc
      intro a ha b hb
      by_contra hab
      exact hcon ⟨a, ha, b, hb, hab⟩
    have hnil : rs ≠ [] := by
      obtain ⟨a, ha, -⟩ := hne
      exact List.ne_nil_of_mem ha
    obtain ⟨m, M, hm, hM⟩ := exists_least_greatest rs hnil
    have hlt := least_lt_greatest rs m M hne hm hM
    exact ⟨m, M - m, by linarith, normalizeValues_map rs m M hne hm hM⟩

/-- C31 (amended): over exact arithmetic `normalizeValues` preserves the relative order of the
values: for the readings at
any two positions `i` and `j`, the value at `i` is `≤` the value at `j` before the call if
and only if it is after the call; equal values stay equal and strictly smaller values stay
strictly smaller. -/
theorem normalizeValues_order (rs : List SensorReading) (i j : Nat) (a b : SensorReading)
    (hi : rs[i]? = some a) (hj : rs[j]? = some b) :
    ∃ a2 b2, (normalizeValues rs)[i]? = some a2 ∧ (normalizeValues rs)[j]? = some b2 ∧
      (a.getValue ≤ b.getValue ↔ a2.getValue ≤ b2.getValue) ∧
      (a.getValue = b.getValue ↔ a2.getValue = b2.getValue) ∧
      (a.getValue < b.getValue ↔ a2.getValue < b2.getValue) := by
  obtain ⟨m, c, hc, hmap⟩ := normalizeValues_affine rs
  have hle : (a.getValue - m) / c ≤ (b.getValue - m) / c ↔ a.getValue ≤ b.getValue := by
    rw [div_le_div_iff_of_pos_right hc]
    constructor <;> intro h <;> linarith
  have hlt : (a.getValue - m) / c < (b.getValue - m) / c ↔ a.getValue < b.getValue := by
    rw [div_lt_div_iff_of_pos_right hc]
    constructor <;> intro h <;> linarith
  refine ⟨a.setValue ((a.getValue - m) / c), b.setValue ((b.getValue - m) / c), ?_, ?_, ?_, ?_,
    ?_⟩
  · rw [hmap, List.getElem?_map, hi]
    rfl
  · rw [hmap, List.getElem?_map, hj]
    rfl
  · rw [setValue_getValue, setValue_getValue]
    exact hle.symm
  · rw [setValue_getValue, setValue_getValue]
    constructor
    · intro h
      rw [h]
    · intro h
      have hge : (b.getValue - m) / c ≤ (a.getValue - m) / c ↔ b.getValue ≤ a.getValue := by
        rw [div_le_div_iff_of_pos_right hc]
        constructor <;> intro h <;> linarith
      exact le_antisymm (hle.mp (le_of_eq h)) (hge.mp (le_of_eq h.symm))
  · rw [setValue_getValue, setValue_getValue]
    exact hlt.symm

theorem normalizeValues_order_witness :
    (normalizeValues exampleRange).map SensorReading.getValue = [0, 1 / 3, 2 / 3, 1] ∧
    ∃ a2 b2, (normalizeValues exampleRange)[2]? = some a2 ∧
      (normalizeValues exampleRange)[1]? = some b2 ∧
      ((exampleRange.get ⟨2, by decide⟩).getValue ≤ (exampleRange.get ⟨1, by decide⟩).getValue
        ↔ a2.getValue ≤ b2.getValue) ∧
      ((exampleRange.get ⟨2, by decide⟩).getValue = (exampleRange.get ⟨1, by decide⟩).getValue
        ↔ a2.getValue = b2.getValue) ∧
      ((exampleRange.get ⟨2, by decide⟩).getValue < (exampleRange.get ⟨1, by decide⟩).getValue
        ↔ a2.getValue < b2.getValue) :=
  ⟨by decide!, normalizeValues_order exampleRange 2 1 (exampleRange.get ⟨2, by decide⟩)
    (exampleRange.get ⟨1, by decide⟩) (by decide) (by decide)⟩

/-! ## Rounding and overflow of the binary64 arithmetic -/

/-- C1 as stated fails on the program: for three readings of `0.1` the rounded sum is
`0.30000000000000004` and the mean `0.10000000000000002` is above the maximum `0.1`; for the
values 1e308 and 1.5e308 the sum overflows, and the mean and the median are both `+infinity`,
above the maximum 1.5e308. -/
theorem calculateStatistics_mean_above_max :
    (calculateStatisticsD exampleTenthsD).max = Dbl.fin (3602879701896397 / 2 ^ 55) ∧
    (calculateStatisticsD exampleTenthsD).mean = Dbl.fin (7205759403792795 / 2 ^ 56) ∧
    Dbl.le (calculateStatisticsD exampleTenthsD).mean (calculateStatisticsD exampleTenthsD).max
      = false ∧
    (calculateStatisticsD exampleLargeD).max = Dbl.round (15 * 10 ^ 307) ∧
    (calculateStatisticsD exampleLargeD).mean = Dbl.pinf ∧
    (calculateStatisticsD exampleLargeD).median = Dbl.pinf ∧
    Dbl.le (calculateStatisticsD exampleLargeD).median (calculateStatisticsD exampleLargeD).max
      = false := by
  decide!

/-- C7 as stated fails on the program: for the values -2.0, -0.2, 0.5, 1.0 the exact lower
bound `Q1 - 1.5*IQR` is below -2, so the reading with value -2 satisfies the claim's condition
(`removeOutliers` over exact arithmetic keeps all four), but the rounded lower bound is
`-2 + 2^-52` and the program drops that reading. -/
theorem removeOutliers_rounded_bound :
    exampleBoundaryD.map SensorReadingD.getValue
      = (exampleBoundary.map SensorReading.getValue).map Dbl.fin ∧
    specQ1 (sortAscending (extractValues exampleBoundary))
      = some (-3602879701896397 / 2 ^ 54) ∧
    specQ3 (sortAscending (extractValues exampleBoundary)) = some 1 ∧
    (-3602879701896397 / 2 ^ 54 : ℚ) - 1.5 * (1 - -3602879701896397 / 2 ^ 54) ≤ -2 ∧
    (-2 : ℚ) ≤ 1 + 1.5 * (1 - -3602879701896397 / 2 ^ 54) ∧
    removeOutliers exampleBoundary = some exampleBoundary ∧
    Dbl.sub (Dbl.round (-2 / 10))
        (Dbl.mul (Dbl.round 1.5) (Dbl.sub (Dbl.fin 1) (Dbl.round (-2 / 10))))
      = Dbl.fin (-2 + 1 / 2 ^ 52) ∧
    removeOutliersD exampleBoundaryD = some (exampleBoundaryD.drop 1) := by
  refine ⟨by decide!, by decide!, by decide!, by norm_num, by norm_num, by decide!, by decide!,
    by decide!⟩

/-- C16 as stated fails on the program: for a single reading with the value `+infinity`,
`max = min` but the range `inf - inf` is NaN, the test `range == 0.0` is false and the value
is rewritten to NaN. -/
theorem normalizeValues_infinite_value :
    Dbl.eq (Dbl.sub Dbl.pinf Dbl.pinf) (Dbl.fin 0) = false ∧
    (normalizeValuesD exampleInfD).map SensorReadingD.getValue = [Dbl.nan] ∧
    normalizeValuesD exampleInfD ≠ exampleInfD := by
  decide!

/-- C31 as stated fails on the program: the values `2^53 - 2 < 2^53 - 1` at positions 1 and 2
are both rewritten to `0.5000000000000001`, so a strictly smaller value does not stay strictly
smaller, and `≤` after the call does not give `≤` before it (positions 2 and 1). -/
theorem normalizeValues_merges_values :
    exampleCloseD.map SensorReadingD.getValue
      = [Dbl.fin 0, Dbl.fin 9007199254740990, Dbl.fin 9007199254740991,
          Dbl.fin 18014398509481978] ∧
    (normalizeValuesD exampleCloseD).map SensorReadingD.getValue
      = [Dbl.fin 0, Dbl.fin (4503599627370497 / 2 ^ 53), Dbl.fin (4503599627370497 / 2 ^ 53),
          Dbl.fin 1] ∧
    Dbl.lt (Dbl.fin 9007199254740990) (Dbl.fin 9007199254740991) = true ∧
    Dbl.lt (Dbl.fin (4503599627370497 / 2 ^ 53)) (Dbl.fin (4503599627370497 / 2 ^ 53))
      = false ∧
    Dbl.le (Dbl.fin 9007199254740991) (Dbl.fin 9007199254740990) = false ∧
    Dbl.le (Dbl.fin (4503599627370497 / 2 ^ 53)) (Dbl.fin (4503599627370497 / 2 ^ 53))
      = true := by
  decide!

theorem minmaxElementD_mem (first : SensorReadingD) (rest : List SensorReadingD) :
    (minmaxElementD first rest).1 ∈ first :: rest ∧
    (minmaxElementD first rest).2 ∈ first :: rest := by
  induction rest using List.reverseRecOn with
  | nil => simp [minmaxElementD]
  | append_singleton l a ih =>
    obtain ⟨h1, h2⟩ := ih
    have hstep : minmaxElementD first (l ++ [a]) =
        (if Dbl.lt a.getValue (minmaxElementD first l).1.getValue then a
          else (minmaxElementD first l).1,
         if Dbl.lt a.getValue (minmaxElementD first l).2.getValue
          then (minmaxElementD first l).2 else a) := by
      unfold minmaxElementD
      rw [List.foldl_concat]
    rw [hstep]
    constructor
    · show (if Dbl.lt a.getValue (minmaxElementD first l).1.getValue then a
        else (minmaxElementD first l).1) ∈ first :: (l ++ [a])
      split
      · simp
      · rcases List.mem_cons.mp h1 with h | h
        · simp [h]
        · simp [h]
    · show (if Dbl.lt a.getValue (minmaxElementD first l).2.getValue
        then (minmaxElementD first l).2 else a) ∈ first :: (l ++ [a])
      split
      · rcases List.mem_cons.mp h2 with h | h
        · simp [h]
        · simp [h]
      · simp

/-- The difference of a finite binary64 value and itself is zero. -/
theorem Dbl.sub_self_fin (q : ℚ) : Dbl.sub (Dbl.fin q) (Dbl.fin q) = Dbl.fin 0 := by
  simp [Dbl.sub, Dbl.neg, Dbl.add, Dbl.round]

/-- In binary64, a collection whose readings all hold the same finite value is returned as it
is: the range is the zero `v - v` and the guard `range == 0.0` returns. -/
theorem normalizeValuesD_const (rs : List SensorReadingD) (q : ℚ)
    (h : ∀ r ∈ rs, r.getValue = Dbl.fin q) :
    normalizeValuesD rs = rs ∧
    ∀ first rest, rs = first :: rest →
      Dbl.sub (minmaxElementD first rest).2.getValue (minmaxElementD first rest).1.getValue
        = Dbl.fin 0 := by
  cases rs with
  | nil => exact ⟨rfl, fun first rest hrs => List.noConfusion hrs⟩
  | cons first rest =>
    obtain ⟨h1, h2⟩ := minmaxElementD_mem first rest
    have hrange : Dbl.sub (minmaxElementD first rest).2.getValue
        (minmaxElementD first rest).1.getValue = Dbl.fin 0 := by
      rw [h _ h1, h _ h2, Dbl.sub_self_fin]
    constructor
    · unfold normalizeValuesD
      simp only [hrange]
      rfl
    · intro f r hrs
      obtain ⟨hf, hr⟩ := List.cons.inj hrs
      rw [← hf, ← hr]
      exact hrange

/-- C16 (amended): in the program's binary64 arithmetic `normalizeValues` leaves the collection
exactly unchanged when it is empty, when it has a single reading with a finite value, and
whenever all readings have the same finite value; in the last two cases the computed range is
zero, so the guard returns before the loop that divides by the range. -/
theorem normalizeValuesD_noop (rs : List SensorReadingD) :
    normalizeValuesD [] = [] ∧
    (∀ (r : SensorReadingD) (q : ℚ), r.getValue = Dbl.fin q → normalizeValuesD [r] = [r]) ∧
    ((∃ q : ℚ, ∀ r ∈ rs, r.getValue = Dbl.fin q) →
      normalizeValuesD rs = rs ∧
      ∀ first rest, rs = first :: rest →
        Dbl.sub (minmaxElementD first rest).2.getValue (minmaxElementD first rest).1.getValue
          = Dbl.fin 0) := by
  refine ⟨rfl, ?_, ?_⟩
  · intro r q hq
    exact (normalizeValuesD_const [r] q (by
      intro a ha
      rw [List.mem_singleton.mp ha]
      exact hq)).1
  · intro h
    obtain ⟨q, hq⟩ := h
    exact normalizeValuesD_const rs q hq

theorem normalizeValuesD_noop_witness :
    (∃ q : ℚ, ∀ r ∈ exampleConstantD, r.getValue = Dbl.fin q) ∧
    normalizeValuesD exampleConstantD = exampleConstantD ∧
    ∀ first rest, exampleConstantD = first :: rest →
      Dbl.sub (minmaxElementD first rest).2.getValue (minmaxElementD first rest).1.getValue
        = Dbl.fin 0 :=
  ⟨⟨3602879701896397 / 2 ^ 55, by decide!⟩,
    (normalizeValuesD_noop exampleConstantD).2.2 ⟨3602879701896397 / 2 ^ 55, by decide!⟩⟩

end SensorData
